import Mathlib

/-!
# Verification of `prime_livetv.py` (AMZN_EPG)

A shallow embedding of the payload-extraction and normalization pipeline of
`src/prime_livetv.py`, together with theorems settling the frozen claims
C1–C10 about it.

Modelling conventions:
* Python/JSON values are the mutual inductive `JSON`/`JArr`/`JObj` below.
  JSON numbers are modelled as integers (the payload's schedule timestamps
  are integral; float literals are outside the model).
* Python `dict`s coming from `json.loads` are `JObj` association lists in
  insertion order with (by construction) unique keys.
* Fallible Python code (code paths on which CPython raises an exception)
  is modelled with `Option`: `none` is an uncaught exception.
* Machine-independent arithmetic: Lean `Int`/`Nat`.  `Int` division `/` is
  Euclidean division which, for the positive literal divisors used here,
  agrees with Python's floor division `//`.
-/

namespace PrimeLiveTv

mutual
/-- A parsed JSON value (the result of Python `json.loads`). -/
inductive JSON where
  | null
  | bool (b : Bool)
  | num (n : Int)
  | str (s : String)
  | arr (elems : JArr)
  | obj (fields : JObj)
deriving DecidableEq
/-- A JSON array (Python list), as its own inductive so that all
recursions over the tree are structural. -/
inductive JArr where
  | nil
  | cons (hd : JSON) (tl : JArr)
deriving DecidableEq
/-- A JSON object (Python dict): key/value bindings in insertion order. -/
inductive JObj where
  | nil
  | cons (key : String) (val : JSON) (tl : JObj)
deriving DecidableEq
end

def JArr.toList : JArr → List JSON
  | .nil => []
  | .cons v vs => v :: vs.toList

def JArr.ofList : List JSON → JArr
  | [] => .nil
  | v :: vs => .cons v (JArr.ofList vs)

def JObj.toList : JObj → List (String × JSON)
  | .nil => []
  | .cons k v fs => (k, v) :: fs.toList

def JObj.ofList : List (String × JSON) → JObj
  | [] => .nil
  | (k, v) :: fs => .cons k v (JObj.ofList fs)

/-- Readable notation-free constructor for object literals. -/
def jobj (l : List (String × JSON)) : JSON := .obj (JObj.ofList l)

/-- Readable notation-free constructor for array literals. -/
def jarr (l : List JSON) : JSON := .arr (JArr.ofList l)

/-- First binding of `key` in an object (Python dicts have unique keys,
so "first" is exact).  This models the raw item access / `in` test. -/
def lookupField : JObj → String → Option JSON
  | .nil, _ => none
  | .cons k v fs, key => if k = key then some v else lookupField fs key

/-- Python `d.get(key)`: `none` both for an absent key and for a JSON
`null` value — Python cannot tell the two apart (both are `None`). -/
def pyGet (fields : JObj) (key : String) : Option JSON :=
  match lookupField fields key with
  | some JSON.null => none
  | some v => some v
  | none => none

/-- Python truthiness of a JSON value. -/
def jtruthy : JSON → Bool
  | .null => false
  | .bool b => b
  | .num n => n != 0
  | .str s => s != ""
  | .arr a => a != .nil
  | .obj o => o != .nil

/-- Python truthiness of a `.get` result (`none` is Python `None`). -/
def otruthy : Option JSON → Bool
  | none => false
  | some v => jtruthy v

/-- Python `a or b` where `a` is a `.get` result and `b` a value:
the first operand if truthy, otherwise the second. -/
def pyOrJ (a : Option JSON) (b : JSON) : JSON :=
  match a with
  | some v => if jtruthy v then v else b
  | none => b

/-- Python `a or b` on two "parse attempt" results (used by the locator:
`_try_json(x) or _try_json(y)` treats a parsed *falsy* JSON value the
same as a parse failure). -/
def pyOrOpt (a b : Option JSON) : Option JSON :=
  match a with
  | some v => if jtruthy v then some v else b
  | none => b

/-! ## Character classes (`re` character classes used by the script) -/

/-- Python regex `\s` on the ASCII range: space, tab, newline, carriage
return, vertical tab, form feed.  (The script's inputs are ASCII-escaped
JSON; general Unicode whitespace is outside the model.) -/
def isPySpace (c : Char) : Bool :=
  c.toNat = 32 || c.toNat = 9 || c.toNat = 10 || c.toNat = 13 ||
    c.toNat = 11 || c.toNat = 12

/-- The character class `[A-Za-z0-9_.-]` of `slugify`. -/
def isSlugChar (c : Char) : Bool :=
  (65 ≤ c.toNat && c.toNat ≤ 90) || (97 ≤ c.toNat && c.toNat ≤ 122) ||
    (48 ≤ c.toNat && c.toNat ≤ 57) || c.toNat = 95 || c.toNat = 46 ||
    c.toNat = 45

/-- Decimal digit character for `n % 10`. -/
def digitChar (n : Nat) : Char := Char.ofNat (48 + n % 10)

/-- Numeric value of a digit character. -/
def c2d (c : Char) : Nat := c.toNat - 48

def isDigitChar (c : Char) : Bool := 48 ≤ c.toNat && c.toNat ≤ 57

/-! ## `slugify` (source lines 82–86) -/

/-- Python `s.strip()`: drop leading and trailing whitespace. -/
def pyStrip (l : List Char) : List Char :=
  ((l.dropWhile isPySpace).reverse.dropWhile isPySpace).reverse

/-- `re.sub(r"\s+", "_", s)`: every maximal whitespace run becomes one
underscore.  `prevSpace` records whether the previous character was
part of a run still being replaced. -/
def collapseWs : List Char → Bool → List Char
  | [], _ => []
  | c :: rest, prevSpace =>
    if isPySpace c then
      (if prevSpace then [] else ['_']) ++ collapseWs rest true
    else c :: collapseWs rest false

/-- `slugify` on character lists: strip, collapse whitespace to `_`,
delete everything outside `[A-Za-z0-9_.-]`, default `"unknown"`. -/
def slugifyL (l : List Char) : List Char :=
  let s1 := pyStrip l
  let s2 := collapseWs s1 false
  let s3 := s2.filter isSlugChar
  if s3.isEmpty then "unknown".data else s3

/-- `slugify` (source lines 82–86). -/
def slugify (s : String) : String := String.mk (slugifyL s.data)

/-! ## `xmltv_time` (source lines 88–95)

`datetime.fromtimestamp(ms / 1000, tz)` followed by
`strftime("%Y%m%d%H%M%S")` plus a `±HHMM` offset suffix.  The proleptic
Gregorian conversion performed inside `datetime` is modelled with the
standard era-decomposition algorithm on a day number shifted so that
day `0` is 0000-03-01 (so day `719468` is the epoch 1970-01-01).
A `tzinfo` object is modelled by its UTC-offset function, in whole
minutes of an epoch-second instant (Python's `total_seconds() // 60`). -/

/-- Day number (shifted epoch, day 0 = 0000-03-01) to Gregorian
`(year, month, day)`. -/
def civilFromDays (n : Nat) : Nat × Nat × Nat :=
  let era := n / 146097
  let doe := n % 146097
  let yoe := (doe - doe / 1460 + doe / 36524 - doe / 146096) / 365
  let doy := doe - (365 * yoe + yoe / 4 - yoe / 100)
  let mp := (5 * doy + 2) / 153
  let d := doy - (153 * mp + 2) / 5 + 1
  let m := if mp < 10 then mp + 3 else mp - 9
  let y := yoe + era * 400
  (if m ≤ 2 then y + 1 else y, m, d)

/-- Gregorian `(year, month, day)` back to the shifted day number. -/
def daysFromCivil (y m d : Nat) : Nat :=
  let y' := if m ≤ 2 then y - 1 else y
  let era := y' / 400
  let yoe := y' % 400
  let mp := if 2 < m then m - 3 else m + 9
  let doy := (153 * mp + 2) / 5 + d - 1
  let doe := yoe * 365 + yoe / 4 - yoe / 100 + doy
  era * 146097 + doe

/-- Decimal digit string of `n` (no sign, no padding); fuel-bounded
structural recursion, exact for every `n < 10^19`. -/
def decDigitsAux : Nat → Nat → List Char
  | 0, _ => []
  | fuel + 1, n => if n = 0 then [] else decDigitsAux fuel (n / 10) ++ [digitChar n]

def decDigits (n : Nat) : List Char :=
  if n = 0 then ['0'] else decDigitsAux 19 n

/-- Zero-pad on the left to width `w` (Python `f"{n:0wd}"` and the
zero-padding `strftime` directives: never truncates). -/
def zfill (w : Nat) (l : List Char) : List Char :=
  List.replicate (w - l.length) '0' ++ l

def fmt02 (n : Nat) : List Char := zfill 2 (decDigits n)

def fmt04 (n : Nat) : List Char := zfill 4 (decDigits n)

/-- `xmltv_time(ms, tzinfo)` (source lines 88–95).  `tz` gives the
timezone's UTC offset in minutes at an epoch-second instant.  The
sub-second part of `ms / 1000` exists on the Python `datetime` but is
discarded by `%S`, so the rendering uses the floor second. -/
def xmltv_time (ms : Int) (tz : Int → Int) : String :=
  let secs := ms / 1000
  let off := tz secs
  let localSecs := secs + off * 60
  let days := localSecs / 86400
  let sod := (localSecs % 86400).toNat
  let n := (days + 719468).toNat
  let c := civilFromDays n
  let sign := if 0 ≤ off then '+' else '-'
  let a := off.natAbs
  String.mk (fmt04 c.1 ++ fmt02 c.2.1 ++ fmt02 c.2.2 ++
    fmt02 (sod / 3600) ++ fmt02 (sod % 3600 / 60) ++ fmt02 (sod % 60) ++
    [' ', sign] ++ fmt02 (a / 60) ++ fmt02 (a % 60))

/-- Reference re-parser for the spec's round-trip property: reads a
`YYYYMMDDHHMMSS ±HHMM` string back to the epoch-millisecond instant it
denotes (the embedded offset fixes the instant). -/
def parseXmltvMs (s : String) : Option Int :=
  match s.data with
  | [y1, y2, y3, y4, a1, a2, b1, b2, c1, c2, d1, d2, e1, e2, sp, sg,
     f1, f2, g1, g2] =>
    if ([y1, y2, y3, y4, a1, a2, b1, b2, c1, c2, d1, d2, e1, e2,
         f1, f2, g1, g2].all isDigitChar) && sp = ' ' && (sg = '+' || sg = '-') then
      let y := 1000 * c2d y1 + 100 * c2d y2 + 10 * c2d y3 + c2d y4
      let mo := 10 * c2d a1 + c2d a2
      let dd := 10 * c2d b1 + c2d b2
      let hh := 10 * c2d c1 + c2d c2
      let mi := 10 * c2d d1 + c2d d2
      let ss := 10 * c2d e1 + c2d e2
      let offMin : Int :=
        (if sg = '+' then 1 else -1) * (60 * (10 * c2d f1 + c2d f2) + (10 * c2d g1 + c2d g2))
      let localSecs : Int :=
        ((daysFromCivil y mo dd : Int) - 719468) * 86400 +
          ((3600 * hh + 60 * mi + ss : Nat) : Int)
      some ((localSecs - offMin * 60) * 1000)
    else none
  | _ => none

/-! ## `extract_epg` (source lines 174–198) -/

/-- Rule 1 of the walk: in an `EpgGroup` container, collect the
`station` dict of every dict entity. -/
def entityStations : JArr → List JObj
  | .nil => []
  | .cons (.obj ent) rest =>
      (match lookupField ent "station" with
       | some (.obj st) => [st]
       | _ => []) ++ entityStations rest
  | .cons _ rest => entityStations rest

/-- Rule 3 of the walk: elements of a `stations` list that are dicts and
look station-like (`"schedule" in st or "name" in st` — key presence). -/
def stationLike : JArr → List JObj
  | .nil => []
  | .cons (.obj st) rest =>
      (if (lookupField st "schedule").isSome || (lookupField st "name").isSome
       then [st] else []) ++ stationLike rest
  | .cons _ rest => stationLike rest

mutual
/-- The recursive walk of `extract_epg`: at every dict node apply the
three (non-exclusive) collection rules in source order, then recurse
into all values; recurse into all list elements. -/
def walkJSON : JSON → List JObj
  | .obj fs =>
      (match lookupField fs "containerType", lookupField fs "entities" with
       | some (.str "EpgGroup"), some (.arr ents) => entityStations ents
       | _, _ => [])
      ++ (match lookupField fs "station" with
          | some (.obj st) => [st]
          | _ => [])
      ++ (match lookupField fs "stations" with
          | some (.arr sts) => stationLike sts
          | _ => [])
      ++ walkFields fs
  | .arr xs => walkElems xs
  | _ => []
def walkFields : JObj → List JObj
  | .nil => []
  | .cons _ v fs => walkJSON v ++ walkFields fs
def walkElems : JArr → List JObj
  | .nil => []
  | .cons v vs => walkJSON v ++ walkElems vs
end

/-- A station's identity key `(st.get("id"), st.get("name"))`. -/
def stationKey (st : JObj) : Option JSON × Option JSON :=
  (pyGet st "id", pyGet st "name")

abbrev Key := Option JSON × Option JSON

/-- A value Python can put in a `set` element: parsed JSON lists and
dicts are unhashable, everything else the payload can contain (`None`,
booleans, numbers, strings) hashes. -/
def hashableVal : Option JSON → Bool
  | some (.arr _) => false
  | some (.obj _) => false
  | _ => true

/-- The station key tuple is hashable iff both components are. -/
def hashableKey (k : Key) : Bool := hashableVal k.1 && hashableVal k.2

/-- The post-walk dedup loop of `extract_epg`: `seen` is the set of keys
already kept; first occurrence of each key wins, order preserved.
`key not in seen` hashes the tuple, so a station whose `id` or `name`
is a parsed list or dict raises `TypeError` — modelled as `none`. -/
def dedupAux : List JObj → List Key → Option (List JObj)
  | [], _ => some []
  | st :: rest, seen =>
    if hashableKey (stationKey st) then
      if stationKey st ∈ seen then dedupAux rest seen
      else
        match dedupAux rest (stationKey st :: seen) with
        | some r => some (st :: r)
        | none => none
    else none

/-- `extract_epg(payload)` (source lines 174–198); `none` is the
`TypeError` raised on an unhashable `(id, name)` key. -/
def extract_epg (payload : JSON) : Option (List JObj) :=
  dedupAux (walkJSON payload) []

/-- The ordered master map `Dict[Tuple[str, str], Dict]` of `main`:
bindings in insertion order, unique keys by construction. -/
abbrev Master := List (Key × JObj)

/-- Python dict lookup `master.get(key)`. -/
def lookupMaster : Master → Key → Option JObj
  | [], _ => none
  | (k, v) :: rest, key => if k = key then some v else lookupMaster rest key

/-- Python dict assignment `master[key] = v`: replace in place if the
key is bound, else append. -/
def setMaster : Master → Key → JObj → Master
  | [], key, v => [(key, v)]
  | (k, w) :: rest, key, v =>
      if k = key then (k, v) :: rest else (k, w) :: setMaster rest key v

/-- Python dict assignment `d[key] = v` on an object. -/
def JObj.set : JObj → String → JSON → JObj
  | .nil, key, v => .cons key v .nil
  | .cons k w fs, key, v =>
      if k = key then .cons k v fs else .cons k w (JObj.set fs key v)

/-- A schedule entry's dedup signature
`(i.get("start"), i.get("end"), (i.get("metadata") or {}).get("title"))`.
`none` models the `AttributeError` Python raises when `metadata` is a
truthy non-dict. -/
def schedSig (it : JObj) : Option (Option JSON × Option JSON × Option JSON) :=
  let md : JSON :=
    match pyGet it "metadata" with
    | some v => if jtruthy v then v else .obj .nil
    | none => .obj .nil
  match md with
  | .obj m => some (pyGet it "start", pyGet it "end", pyGet m "title")
  | _ => none

abbrev Sig := Option JSON × Option JSON × Option JSON

/-- The `seen` set comprehension of `merge`: signatures of the dict
entries of an existing schedule (non-dicts are filtered out). -/
def seenSigs : List JSON → Option (List Sig)
  | [] => some []
  | .obj it :: rest =>
    match schedSig it with
    | none => none
    | some s =>
      match seenSigs rest with
      | none => none
      | some r => some (s :: r)
  | _ :: rest => seenSigs rest

/-- Python `list(x or [])` / iteration of `x or []` where `x` is a
`.get` result: falsy values give `[]`; a list gives its elements; a
string iterates its characters; a dict iterates its keys; numbers and
booleans are not iterable (`TypeError`, modelled `none`). -/
def pyListOf (v : Option JSON) : Option (List JSON) :=
  match v with
  | none => some []
  | some j =>
    if jtruthy j then
      match j with
      | .arr l => some l.toList
      | .str s => some (s.data.map (fun c => .str (String.mk [c])))
      | .obj fs => some (fs.toList.map (fun kv => .str kv.1))
      | _ => none
    else some []

/-- The append loop of `merge`: keep the incoming dict entries whose
signature is not in `seen`, updating `seen` as it goes; non-dict
entries are skipped.  `none` models a raised `AttributeError`. -/
def appendNew : List Sig → List JSON → Option (List JSON)
  | _, [] => some []
  | seen, .obj it :: rest =>
    match schedSig it with
    | none => none
    | some sig =>
      if sig ∈ seen then appendNew seen rest
      else
        match appendNew (sig :: seen) rest with
        | none => none
        | some r => some (.obj it :: r)
  | seen, _ :: rest => appendNew seen rest

/-- `cur.setdefault("schedule", [])` read side: the existing schedule
list (`[]` when the key is absent — the write side is folded into the
final `JObj.set`).  A non-list value is modelled as an error (Python
raises when iterating/appending such a value). -/
def curSchedOf (cur : JObj) : Option (List JSON) :=
  match lookupField cur "schedule" with
  | some (.arr l) => some l.toList
  | none => some []
  | some _ => none

/-- The insert branch of `merge`:
`copy = dict(st); copy["schedule"] = list(st.get("schedule") or [])`. -/
def insertStation (m : Master) (key : Key) (st : JObj) : Option Master :=
  match pyListOf (pyGet st "schedule") with
  | none => none
  | some l => some (setMaster m key (JObj.set st "schedule" (.arr (JArr.ofList l))))

/-- One iteration of the `merge` loop (source lines 201–215) for a
single station.  Note Python's `if not cur:` is a truthiness test, so
an existing *empty* dict takes the insert (overwrite) branch. -/
def mergeStation (m : Master) (st : JObj) : Option Master :=
  let key := stationKey st
  match lookupMaster m key with
  | none => insertStation m key st
  | some cur =>
    if cur = .nil then insertStation m key st
    else
      match curSchedOf cur with
      | none => none
      | some sched =>
        match seenSigs sched with
        | none => none
        | some seen =>
          match pyListOf (pyGet st "schedule") with
          | none => none
          | some inc =>
            match appendNew seen inc with
            | none => none
            | some newEntries =>
              some (setMaster m key
                (JObj.set cur "schedule" (.arr (JArr.ofList (sched ++ newEntries)))))

/-- `merge(master, stations)` (source lines 200–215). -/
def merge : Master → List JObj → Option Master
  | m, [] => some m
  | m, st :: rest =>
    match mergeStation m st with
    | none => none
    | some m2 => merge m2 rest

/-- A schedule entry on which signature computation cannot raise:
non-dict entries (skipped by `merge`) or dict entries whose `metadata`
is falsy or a dict — exactly the entries conforming to the spec's
`ScheduleEntry` data model. -/
def goodEntry (e : JSON) : Bool :=
  match e with
  | .obj it => (schedSig it).isSome
  | _ => true

/-- A station whose `schedule` field is iterable and whose entries are
all `goodEntry` (the spec's `Station` data model). -/
def goodStation (st : JObj) : Bool :=
  match pyListOf (pyGet st "schedule") with
  | some l => l.all goodEntry
  | none => false

/-- All bindings of an object except a given key (used to state that
merge never touches non-schedule fields). -/
def removeField : JObj → String → JObj
  | .nil, _ => .nil
  | .cons k v fs, key =>
      if k = key then removeField fs key else .cons k v (removeField fs key)

/-- The schedule list of a stored station (`[]` when absent or not a
list) — used to state schedule growth. -/
def schedListOf (fs : JObj) : List JSON :=
  match lookupField fs "schedule" with
  | some (.arr l) => l.toList
  | _ => []

/-- The state `merge` leaves a station's master entry in: the station's
key is bound to a non-empty dict whose `schedule` is a list, every dict
entry of that list has a signature, and every incoming dict entry of
the station is already represented there.  Merging such a station is a
no-op (the heart of claim C4). -/
def settled (m : Master) (st : JObj) : Prop :=
  ∃ cur a seen,
    lookupMaster m (stationKey st) = some cur ∧ cur ≠ .nil ∧
    lookupField cur "schedule" = some (.arr a) ∧
    seenSigs a.toList = some seen ∧
    ∃ inc, pyListOf (pyGet st "schedule") = some inc ∧
      ∀ it : JObj, JSON.obj it ∈ inc → ∃ sig, schedSig it = some sig ∧ sig ∈ seen

/-! ## `build_xmltv` (source lines 217–260) -/

/-- Python `str(x)` on a JSON scalar.  Container `repr`s are abbreviated
(no claim evaluates them; the title chain yields a scalar or the
`"Untitled"` default on all modelled inputs). -/
def pyStr : JSON → String
  | .str s => s
  | .num n => toString n
  | .bool b => if b then "True" else "False"
  | .null => "None"
  | .arr _ => "[…]"
  | .obj _ => "\x7b…\x7d"

/-- Digit-string value for Python `int(str)` (`none` unless the body is
one or more ASCII digits; numeric-literal underscores are outside the
model). -/
def digitsVal (l : List Char) : Option Nat :=
  if l ≠ [] && l.all isDigitChar then
    some (l.foldl (fun a c => 10 * a + c2d c) 0)
  else none

/-- Python `int(s)` on a string: strip whitespace, optional sign,
decimal digits; anything else raises `ValueError`. -/
def parseIntLit (s : String) : Option Int :=
  match pyStrip s.data with
  | '+' :: ds => (digitsVal ds).map (fun n => (n : Int))
  | '-' :: ds => (digitsVal ds).map (fun n => -(n : Int))
  | ds => (digitsVal ds).map (fun n => (n : Int))

/-- Python `int(x)` on a JSON value: ints pass through, booleans give
0/1, strings are parsed, everything else raises. -/
def pyInt : JSON → Option Int
  | .num n => some n
  | .bool b => some (if b then 1 else 0)
  | .str s => parseIntLit s
  | _ => none

/-- One `programme` element, as far as the claims are concerned. -/
structure Programme where
  start : Int
  stop : Int
  title : String
deriving DecidableEq

/-- The per-entry body of the programme loop (source lines 234–246):
skip non-dict entries, entries with a missing (or null) `start`/`end`,
and entries whose `start`/`end` cannot be coerced with `int(...)`;
otherwise emit a programme with the title chain
`str(meta.get("title") or meta.get("seriesTitle") or "Untitled")`. -/
def programme_of_entry (it : JSON) : Option Programme :=
  match it with
  | .obj fs =>
    let meta : JObj :=
      match lookupField fs "metadata" with
      | some (.obj m) => m
      | _ => .nil
    match pyGet fs "start", pyGet fs "end" with
    | some sv, some ev =>
      match pyInt sv, pyInt ev with
      | some si, some ei =>
          some { start := si, stop := ei,
                 title := pyStr (pyOrJ (pyGet meta "title")
                   (pyOrJ (pyGet meta "seriesTitle") (.str "Untitled"))) }
      | _, _ => none
    | _, _ => none
  | _ => none

/-- The programmes emitted for one station:
`sched = st.get("schedule") or []`, skipped whole when not a list
(source lines 232–233), then the per-entry loop. -/
def programmes_of_station (st : JObj) : List Programme :=
  match pyGet st "schedule" with
  | some (.arr l) => l.toList.filterMap programme_of_entry
  | _ => []

/-- A schedule entry the claim C9 calls malformed: `start` or `end`
missing (or null, or the entry is not a dict), or present but not
coercible with `int(...)`. -/
def malformedEntry (it : JSON) : Bool :=
  match it with
  | .obj fs =>
    match pyGet fs "start", pyGet fs "end" with
    | some sv, some ev => (pyInt sv).isNone || (pyInt ev).isNone
    | _, _ => true
  | _ => true

/-- The channel identity computed for one station (source lines
221–228): `(channel element id, display-name text)`.
`sname = st.get("name") or sid or "unknown"`,
`ch_id = sname if use_names else (sid or sname)`, optionally slugified.
Slugifying a non-string raises in Python; the model leaves such a value
unchanged (unreachable under the claims' hypotheses). -/
def channel_of_station (st : JObj) (useNames slugIds : Bool) : JSON × JSON :=
  let sid := pyGet st "id"
  let sname := pyOrJ (pyGet st "name") (pyOrJ sid (.str "unknown"))
  let chId0 := if useNames then sname else pyOrJ sid sname
  let chId :=
    if slugIds then
      match chId0 with
      | .str s => .str (slugify s)
      | v => v
    else chId0
  (chId, sname)

/-! ## `extract_store_json_from_html` (source lines 130–172)

The locator works on raw text.  `json.loads` is modelled by a
fuel-bounded recursive-descent parser over the grammar the payloads
use (integer numerals; float literals, and `json`'s leading-zero
rejection, are outside the model).  The two `re.search` patterns are
modelled by structural matchers with the same literal anchors. -/

/-- Skip JSON whitespace. -/
def skipWsJ (l : List Char) : List Char :=
  l.dropWhile (fun c => c = ' ' || c = '\t' || c = '\n' || c = '\r')

/-- Hexadecimal digit value. -/
def hexVal (c : Char) : Option Nat :=
  if 48 ≤ c.toNat && c.toNat ≤ 57 then some (c.toNat - 48)
  else if 97 ≤ c.toNat && c.toNat ≤ 102 then some (c.toNat - 87)
  else if 65 ≤ c.toNat && c.toNat ≤ 70 then some (c.toNat - 55)
  else none

/-- JSON string body after the opening quote: returns the decoded
characters and the remainder after the closing quote.  Unescaped
control characters are rejected as `json.loads` does; `\uXXXX` decodes
one code unit (surrogate-pair recombination is outside the model). -/
def pStr : List Char → Option (List Char × List Char)
  | [] => none
  | '"' :: r => some ([], r)
  | '\\' :: e :: r =>
    match e with
    | '"' => (pStr r).map (fun p => ('"' :: p.1, p.2))
    | '\\' => (pStr r).map (fun p => ('\\' :: p.1, p.2))
    | '/' => (pStr r).map (fun p => ('/' :: p.1, p.2))
    | 'b' => (pStr r).map (fun p => ('\x08' :: p.1, p.2))
    | 'f' => (pStr r).map (fun p => ('\x0c' :: p.1, p.2))
    | 'n' => (pStr r).map (fun p => ('\n' :: p.1, p.2))
    | 'r' => (pStr r).map (fun p => ('\x0d' :: p.1, p.2))
    | 't' => (pStr r).map (fun p => ('\t' :: p.1, p.2))
    | 'u' =>
      match r with
      | h1 :: h2 :: h3 :: h4 :: r2 =>
        match hexVal h1, hexVal h2, hexVal h3, hexVal h4 with
        | some a, some b, some c, some d =>
          (pStr r2).map (fun p =>
            (Char.ofNat (4096 * a + 256 * b + 16 * c + d) :: p.1, p.2))
        | _, _, _, _ => none
      | _ => none
    | _ => none
  | c :: r =>
    if c.toNat < 32 then none
    else (pStr r).map (fun p => (c :: p.1, p.2))

/-- Integer numeral: one or more digits. -/
def pNum (l : List Char) : Option (Nat × List Char) :=
  match digitsVal (l.takeWhile isDigitChar) with
  | some n => some (n, l.dropWhile isDigitChar)
  | none => none

mutual
/-- One JSON value (leading whitespace allowed), fuel-bounded. -/
def pVal : Nat → List Char → Option (JSON × List Char)
  | 0, _ => none
  | fuel + 1, l =>
    match skipWsJ l with
    | 'n' :: 'u' :: 'l' :: 'l' :: r => some (.null, r)
    | 't' :: 'r' :: 'u' :: 'e' :: r => some (.bool true, r)
    | 'f' :: 'a' :: 'l' :: 's' :: 'e' :: r => some (.bool false, r)
    | '"' :: r =>
      match pStr r with
      | some (s, rest) => some (.str (String.mk s), rest)
      | none => none
    | '[' :: r =>
      (match pArrItems fuel r with
       | some (a, rest) => some (.arr a, rest)
       | none => none)
    | '{' :: r =>
      (match pObjItems fuel r with
       | some (o, rest) => some (.obj o, rest)
       | none => none)
    | '-' :: r =>
      (match pNum r with
       | some (n, rest) => some (.num (-(n : Int)), rest)
       | none => none)
    | c :: r =>
      if isDigitChar c then
        match pNum (c :: r) with
        | some (n, rest) => some (.num (n : Int), rest)
        | none => none
      else none
    | [] => none
/-- Array items after `[`. -/
def pArrItems : Nat → List Char → Option (JArr × List Char)
  | 0, _ => none
  | fuel + 1, l =>
    match skipWsJ l with
    | ']' :: r => some (.nil, r)
    | l' =>
      match pVal fuel l' with
      | some (v, rest) =>
        (match pArrMore fuel rest with
         | some (a, rest2) => some (.cons v a, rest2)
         | none => none)
      | none => none
/-- `, value`* `]` after an array item. -/
def pArrMore : Nat → List Char → Option (JArr × List Char)
  | 0, _ => none
  | fuel + 1, l =>
    match skipWsJ l with
    | ']' :: r => some (.nil, r)
    | ',' :: r =>
      (match pVal fuel r with
       | some (v, rest) =>
         (match pArrMore fuel rest with
          | some (a, rest2) => some (.cons v a, rest2)
          | none => none)
       | none => none)
    | _ => none
/-- Object members after the opening brace. -/
def pObjItems : Nat → List Char → Option (JObj × List Char)
  | 0, _ => none
  | fuel + 1, l =>
    match skipWsJ l with
    | '}' :: r => some (.nil, r)
    | '"' :: r =>
      (match pStr r with
       | some (k, rest) =>
         (match skipWsJ rest with
          | ':' :: rest2 =>
            (match pVal fuel rest2 with
             | some (v, rest3) =>
               (match pObjMore fuel rest3 with
                | some (o, rest4) => some (.cons (String.mk k) v o, rest4)
                | none => none)
             | none => none)
          | _ => none)
       | none => none)
    | _ => none
/-- `, "key": value`* and the closing brace after an object member. -/
def pObjMore : Nat → List Char → Option (JObj × List Char)
  | 0, _ => none
  | fuel + 1, l =>
    match skipWsJ l with
    | '}' :: r => some (.nil, r)
    | ',' :: r =>
      (match skipWsJ r with
       | '"' :: r2 =>
         (match pStr r2 with
          | some (k, rest) =>
            (match skipWsJ rest with
             | ':' :: rest2 =>
               (match pVal fuel rest2 with
                | some (v, rest3) =>
                  (match pObjMore fuel rest3 with
                   | some (o, rest4) => some (.cons (String.mk k) v o, rest4)
                   | none => none)
                | none => none)
             | _ => none)
          | none => none)
       | _ => none)
    | _ => none
end

/-- `json.loads` on a character list: a single value with only
whitespace around it.  The fuel `length + 1` is ample: every recursion
level first consumes at least one character. -/
def pyJsonLoads (l : List Char) : Option JSON :=
  match pVal (l.length + 1) l with
  | some (v, rest) => if skipWsJ rest = [] then some v else none
  | none => none

/-- `_sanitize_json_escapes` (source lines 132–133):
`re.sub(r'\\([^"\\/bfnrtu])', m.group(1))` — a backslash whose follower
is not a JSON-legal escape target is dropped; scanning is
left-to-right and non-overlapping. -/
def sanitizeEsc : List Char → List Char
  | '\\' :: c :: r =>
      if c = '"' || c = '\\' || c = '/' || c = 'b' || c = 'f' || c = 'n' ||
         c = 'r' || c = 't' || c = 'u'
      then '\\' :: sanitizeEsc (c :: r)
      else c :: sanitizeEsc r
  | c :: r => c :: sanitizeEsc r
  | [] => []

/-- `js = _try_json(c) or _try_json(_sanitize_json_escapes(c))` — the
candidate parse with escape-cleanup retry (a parsed *falsy* value is
treated as a failure by the `or`). -/
def tryParse2 (c : List Char) : Option JSON :=
  pyOrOpt (pyJsonLoads c) (pyJsonLoads (sanitizeEsc c))

/-- `str.replace` (non-overlapping, left to right), fuel-bounded by the
text length. -/
def replaceSubAux : Nat → List Char → List Char → List Char → List Char
  | 0, l, _, _ => l
  | fuel + 1, l, pat, rep =>
    if pat ≠ [] && pat.isPrefixOf l then
      rep ++ replaceSubAux fuel (l.drop pat.length) pat rep
    else
      match l with
      | [] => []
      | c :: r => c :: replaceSubAux fuel r pat rep

def replaceSub (l pat rep : List Char) : List Char :=
  replaceSubAux l.length l pat rep

/-- `html.unescape` restricted to the entities occurring in these pages
(the full function decodes every named entity). -/
def htmlUnescape : List Char → List Char
  | '&' :: 'a' :: 'm' :: 'p' :: ';' :: r => '&' :: htmlUnescape r
  | '&' :: 'l' :: 't' :: ';' :: r => '<' :: htmlUnescape r
  | '&' :: 'g' :: 't' :: ';' :: r => '>' :: htmlUnescape r
  | '&' :: 'q' :: 'u' :: 'o' :: 't' :: ';' :: r => '"' :: htmlUnescape r
  | '&' :: '#' :: '3' :: '4' :: ';' :: r => '"' :: htmlUnescape r
  | '&' :: '#' :: '3' :: '9' :: ';' :: r => '\'' :: htmlUnescape r
  | c :: r => c :: htmlUnescape r
  | [] => []

/-- Try a positional matcher at every suffix, leftmost success wins
(`re.search` semantics for the structural matchers used here). -/
def scanPos {α : Type} (f : List Char → Option α) : List Char → Option α
  | [] => f []
  | c :: r =>
    match f (c :: r) with
    | some x => some x
    | none => scanPos f r

/-- ASCII lowercasing — the effect of `re.I` on `SCRIPT_ID_RE`'s
all-ASCII pattern. -/
def toLowerC (c : Char) : Char :=
  if 65 ≤ c.toNat && c.toNat ≤ 90 then Char.ofNat (c.toNat + 32) else c

/-- Case-insensitive prefix test (`SCRIPT_ID_RE` is compiled with
`re.I`). -/
def isPrefixOfCI : List Char → List Char → Bool
  | [], _ => true
  | _ :: _, [] => false
  | p :: ps, c :: cs => (toLowerC p = toLowerC c) && isPrefixOfCI ps cs

/-- The text strictly before the first case-insensitive occurrence of
`pat` (`none` when `pat` does not occur). -/
def takeUntilSubCI (l pat : List Char) : Option (List Char) :=
  if isPrefixOfCI pat l then some []
  else
    match l with
    | [] => none
    | c :: r =>
      match takeUntilSubCI r pat with
      | some t => some (c :: t)
      | none => none

/-- `id=["']dv-web-store-template["']` at the head of `l`,
case-insensitively (`re.I`); the regex's quote classes are independent,
so mismatched quotes also match. -/
def idAttrAt (l : List Char) : Bool :=
  (isPrefixOfCI "id=".data l) &&
    (match l.drop 3 with
     | q :: r =>
       (q = '"' || q = '\'') && (isPrefixOfCI "dv-web-store-template".data r) &&
         (match r.drop 21 with
          | q2 :: _ => q2 = '"' || q2 = '\''
          | [] => false)
     | [] => false)

/-- `pat in l` — substring containment. -/
def containsSub (pat : List Char) : List Char → Bool
  | [] => pat.isEmpty
  | c :: r => pat.isPrefixOf (c :: r) || containsSub pat r

/-- The id attribute somewhere after at least one character of the tag
(the regex's `[^>]+` before `id=`). -/
def hasIdAttr : List Char → Bool
  | [] => false
  | _ :: r => idAttrAt r || hasIdAttr r

/-- One attempt of `SCRIPT_ID_RE` at a fixed position (the regex is
compiled `re.I | re.S`, so all literals match case-insensitively):
`<script`, a `>`-free attribute stretch containing the store-template
id, `>`, then the (lazy) content up to the first `</script>`. -/
def scriptContentAt (l : List Char) : Option (List Char) :=
  if isPrefixOfCI "<script".data l then
    let rest := l.drop 7
    let tag := rest.takeWhile (fun c => c ≠ '>')
    if hasIdAttr tag then
      match rest.drop tag.length with
      | '>' :: body => takeUntilSubCI body "</script>".data
      | _ => none
    else none
  else none

/-- `content[1:-1]` with `\"` and `\/` unescaped, when the content is
wrapped in a matching quote character (Python's `content[:1] in "\"'"`
is vacuously true for empty content — kept faithfully). -/
def quoteStripped (c : List Char) : Option (List Char) :=
  match c with
  | [] => some []
  | f :: _ =>
    if (f = '"' || f = '\'') && c.getLast? = some f then
      some (replaceSub (replaceSub (c.drop 1).dropLast "\\\"".data "\"".data)
        "\\/".data "/".data)
    else none

/-- The candidate loop of strategy (b): the unescaped+stripped content,
then its quote-stripped variant; first truthy parse wins. -/
def candidateResults (content : List Char) : Option JSON :=
  let r1 := tryParse2 content
  if otruthy r1 then r1
  else
    match quoteStripped content with
    | some c2 =>
      let r2 := tryParse2 c2
      if otruthy r2 then r2 else none
    | none => none

/-- Strategy (b): the `dv-web-store-template` script element. -/
def scriptStrategy (l : List Char) : Option JSON :=
  match scanPos scriptContentAt l with
  | some content => candidateResults (pyStrip (htmlUnescape content))
  | none => none

/-- First index of `pat` in `l`. -/
def subIdx (l pat : List Char) : Option Nat :=
  match l with
  | [] => if pat = [] then some 0 else none
  | _ :: r =>
    if pat.isPrefixOf l then some 0
    else (subIdx r pat).map (· + 1)

/-- Index of the last `'{'` in `l` (models `str.rfind`). -/
def lastBraceIdx : List Char → Option Nat
  | [] => none
  | c :: r =>
    match lastBraceIdx r with
    | some i => some (i + 1)
    | none => if c = '{' then some 0 else none

/-- The brace-depth scan of strategy (c): from a `'{'`, the chunk up to
the matching close brace (`none` when the text ends unbalanced). -/
def braceScan : List Char → Nat → List Char → Option (List Char)
  | [], _, _ => none
  | c :: r, depth, acc =>
    if c = '{' then braceScan r (depth + 1) (c :: acc)
    else if c = '}' then
      (if depth = 1 then some (c :: acc).reverse
       else braceScan r (depth - 1) (c :: acc))
    else braceScan r depth (c :: acc)

/-- Strategy (c): locate the literal `"containerType":"EpgGroup"`, back
up to the nearest `'{'`, take the balanced chunk, and parse it (only
the first balanced chunk is ever attempted — the loop `break`s). -/
def epgStrategy (l : List Char) : Option JSON :=
  match subIdx l "\"containerType\":\"EpgGroup\"".data with
  | none => none
  | some epgIdx =>
    match lastBraceIdx (l.take epgIdx) with
    | none => none
    | some start =>
      match braceScan (l.drop start) 0 [] with
      | none => none
      | some chunk =>
        let js := tryParse2 chunk
        if otruthy js then js else none

/-- One attempt of the Apollo pattern
`window\.__APOLLO_STATE__\s*=\s*({.*?});\s*</script>` at a fixed
position, returning the captured object literal. -/
def apolloCaptureAt (l : List Char) : Option (List Char) :=
  if "window.__APOLLO_STATE__".data.isPrefixOf l then
    match (l.drop 23).dropWhile isPySpace with
    | '=' :: r2 =>
      (match r2.dropWhile isPySpace with
       | '{' :: r3 => apolloBody r3 []
       | _ => none)
    | _ => none
  else none
where
  /-- Lazy scan: the earliest `}` directly followed by `;`, optional
  whitespace and `</script>` closes the capture. -/
  apolloBody : List Char → List Char → Option (List Char)
    | [], _ => none
    | c :: r, acc =>
      if c = '}' then
        match r with
        | ';' :: r2 =>
          if "</script>".data.isPrefixOf (r2.dropWhile isPySpace)
          then some ('{' :: acc.reverse ++ ['}'])
          else apolloBody r (c :: acc)
        | _ => apolloBody r (c :: acc)
      else apolloBody r (c :: acc)

/-- Strategy (d): the Apollo state assignment. -/
def apolloStrategy (l : List Char) : Option JSON :=
  match scanPos apolloCaptureAt l with
  | some chunk =>
    let js := pyJsonLoads chunk
    if otruthy js then js else none
  | none => none

/-- `extract_store_json_from_html` (source lines 141–172): the three
strategies in order; `None` when all fail. -/
def extract_store_json_from_html (html : String) : Option JSON :=
  match scriptStrategy html.data with
  | some js => some js
  | none =>
    match epgStrategy html.data with
    | some js => some js
    | none => apolloStrategy html.data

/-! ## Live-event synthesis (spec §4.2, fallback for `extract_epg`)

Modelled from the spec: the live-event synthesis routine is not part of
`src/prime_livetv.py` (the spec documents it for the repository's
sibling script variant; this file's `main` plainly skips a page when
`extract_epg` is empty).  Following the spec's words: walk the tree for
sequences under an `entities` field; keep each entity whose type is an
event or title kind and which is live or has a title; derive a provider
name from its logo URL, defaulting to a fixed placeholder; group
entities by provider into pseudo-stations with one schedule entry per
entity spanning `now .. now + 2h`.  Field names (`type`, `isLive`,
`title`, `logo`, `image`) and the logo-URL rule (last path segment,
extension stripped) are modelling choices the spec leaves open. -/

/-- Modelled from the spec: an entity "whose type is an event or title
kind and which is live or has a title". -/
def entityEligible (ent : JObj) : Bool :=
  (match lookupField ent "type" with
   | some (.str t) => t = "EVENT" || t = "TITLE"
   | _ => false)
  && ((match lookupField ent "isLive" with
       | some (.bool true) => true
       | _ => false)
      || otruthy (pyGet ent "title"))

/-- Modelled from the spec: provider name parsed from a logo URL — the
final path segment with its extension stripped, when nonempty. -/
def providerFromLogo (u : String) : Option String :=
  match (u.splitOn "/").getLast? with
  | some seg =>
    (match seg.splitOn "." with
     | base :: _ => if base = "" then none else some base
     | [] => none)
  | none => none

/-- Modelled from the spec: the fixed placeholder channel name used
when no provider can be parsed from a logo URL. -/
def livePlaceholder : String := "Prime Live"

/-- Modelled from the spec: an eligible entity's provider name. -/
def providerOf (ent : JObj) : String :=
  match lookupField ent "logo" with
  | some (.str u) =>
    (match providerFromLogo u with
     | some p => p
     | none => livePlaceholder)
  | _ => livePlaceholder

/-- Modelled from the spec: the first available of a fixed priority
list of image keys. -/
def entityImage (ent : JObj) : Option String :=
  match lookupField ent "image" with
  | some (.str u) => some u
  | _ =>
    match lookupField ent "wideImage" with
    | some (.str u) => some u
    | _ => none

/-- Collect the eligible entities of one `entities` sequence. -/
def eligibleOf : JArr → List JObj
  | .nil => []
  | .cons (.obj ent) rest =>
      (if entityEligible ent then [ent] else []) ++ eligibleOf rest
  | .cons _ rest => eligibleOf rest

mutual
/-- Modelled from the spec: walk the tree for sequences under an
`entities` field and collect eligible live entities. -/
def liveWalk : JSON → List JObj
  | .obj fs =>
      (match lookupField fs "entities" with
       | some (.arr ents) => eligibleOf ents
       | _ => [])
      ++ liveWalkFields fs
  | .arr xs => liveWalkElems xs
  | _ => []
def liveWalkFields : JObj → List JObj
  | .nil => []
  | .cons _ v fs => liveWalk v ++ liveWalkFields fs
def liveWalkElems : JArr → List JObj
  | .nil => []
  | .cons v vs => liveWalk v ++ liveWalkElems vs
end

/-- Modelled from the spec: the 2-hour placeholder schedule entry for
one entity, from the synthesis timestamp `now` (epoch milliseconds). -/
def liveEntry (ent : JObj) (now : Int) : JSON :=
  jobj [("start", .num now), ("end", .num (now + 7200000)),
        ("metadata", jobj
          (("title", pyOrJ (pyGet ent "title") (.str livePlaceholder)) ::
           (match entityImage ent with
            | some u => [("image", jobj [("url", .str u)])]
            | none => [])))]

/-- Append an entity's entry to its provider's group (insertion order
of providers preserved). -/
def addToGroup : List (String × List JSON) → String → JSON → List (String × List JSON)
  | [], p, e => [(p, [e])]
  | (q, es) :: rest, p, e =>
      if q = p then (q, es ++ [e]) :: rest else (q, es) :: addToGroup rest p e

def groupEntities (ents : List JObj) (now : Int) : List (String × List JSON) :=
  ents.foldl (fun acc ent => addToGroup acc (providerOf ent) (liveEntry ent now)) []

/-- Modelled from the spec: the live-event synthesis fallback — one
pseudo-station per provider with the grouped placeholder entries. -/
def synth_live_events (payload : JSON) (now : Int) : List JObj :=
  (groupEntities (liveWalk payload) now).map (fun pg =>
    JObj.ofList [("id", .str pg.1), ("name", .str pg.1),
                 ("schedule", .arr (JArr.ofList pg.2))])

/-- Modelled from the spec: "run the station extractor, and on empty
result attempt live-event synthesis as fallback" (an extractor
`TypeError` propagates). -/
def extract_or_synth (payload : JSON) (now : Int) : Option (List JObj) :=
  match extract_epg payload with
  | none => none
  | some stations =>
    some (if stations.isEmpty then synth_live_events payload now else stations)

/-! ## The driver `main` (source lines 310–381) and its exit codes -/

/-- `apply_live_urls()` (source lines 300–307): the built-in default
URL list substituted when no `--url` was given. -/
def apply_live_urls : List String :=
  ["https://www.amazon.com/gp/video/livetv/ref=atv_hm_liv_LR375370_slct?serviceToken=v0_Cl0KJGYyNjIwZWVmLWU4YjMtNDNiYS1hOGYwLTM5OTU5NTVkN2Q0ORDYua6HlDMaLExpNitvL2dzaDBoR0NjVGdhVGdLTHptYkF6dHpuZ29zb2VJMDZ6YWhmZEk9IAESBmZpbHRlchgBIgRob21lKgRsaXZlWj4KDGxpbmVhckZpbHRlchIuCixhbXpuMS1wdi1saW5lYXItbGl2ZV90YWItZmlsdGVyLWFuaW1lX2dhbWluZ3oAggEGMABQAHAA&dvWebSPAClientVersion=1.0.111305.0",
   "https://www.amazon.com/gp/video/livetv/ref=atv_hm_liv_LRd39d40_slct?serviceToken=v0_Cl0KJDYwMTRmN2Q2LTY2ODEtNDQ1NC05NWY2LTA4NWE5ZDc1Y2ZkYhCYxb-HlDMaLExpNitvL2dzaDBoR0NjVGdhVGdLTHptYkF6dHpuZ29zb2VJMDZ6YWhmZEk9IAESBmZpbHRlchgBIgRob21lKgRsaXZlWjgKDGxpbmVhckZpbHRlchIoCiZhbXpuMS1wdi1saW5lYXItbGl2ZV90YWItZmlsdGVyLWZhbWlseXoAggEGMABQAHAA&dvWebSPAClientVersion=1.0.111305.0",
   "https://www.amazon.com/gp/video/livetv/ref=atv_hm_liv_LR9d1a7d_slct?serviceToken=v0_Cl0KJGY0YWIwYjY0LTBjMjctNDkxZS04ODZiLTc0MWJkYzA1M2FkYhDQvsmHlDMaLExpNitvL2dzaDBoR0NjVGdhVGdLTHptYkF6dHpuZ29zb2VJMDZ6YWhmZEk9IAESBmZpbHRlchgBIgRob21lKgRsaXZlWjgKDGxpbmVhckZpbHRlchIoCiZhbXpuMS1wdi1saW5lYXItbGl2ZV90YWItZmlsdGVyLW1vdmllc3oAggEGMABQAHAA&dvWebSPAClientVersion=1.0.111305.0",
   "https://www.amazon.com/gp/video/livetv/ref=atv_hm_liv_LRd40aee_slct?serviceToken=v0_Cl0KJGMxNzg5ZmQzLTY4ZGItNGU4ZC1hNzMzLTE2ZDkyMzAxYzc1MhCQ9MyHlDMaLExpNitvL2dzaDBoR0NjVGdhVGdLTHptYkF6dHpuZ29zb2VJMDZ6YWhmZEk9IAESBmZpbHRlchgBIgRob21lKgRsaXZlWjsKDGxpbmVhckZpbHRlchIrCilhbXpuMS1wdi1saW5lYXItbGl2ZV90YWItZmlsdGVyLXN1YnNjcmliZXoAggEGMABQAHAA&dvWebSPAClientVersion=1.0.111305.0",
   "https://www.amazon.com/gp/video/livetv/ref=atv_hm_liv_LR755354_slct?serviceToken=v0_Cl0KJDRjNGMwZmI0LTdiZmUtNDExZi1iMTY1LWEyMjNmNDhhY2E1ZhDQrM-HlDMaLExpNitvL2dzaDBoR0NjVGdhVGdLTHptYkF6dHpuZ29zb2VJMDZ6YWhmZEk9IAESBmZpbHRlchgBIgRob21lKgRsaXZlWjYKDGxpbmVhckZpbHRlchImCiRhbXpuMS1wdi1saW5lYXItbGl2ZV90YWItZmlsdGVyLW5ld3N6AIIBBjAAUABwAA%3D%3D&dvWebSPAClientVersion=1.0.111305.0"]

/-- The per-URL body of `main`'s HTML loop (source lines 323–345):
skip on non-200 or empty body, on locator failure, and on an empty
station list; otherwise merge.  `fetch` is the HTTP oracle
`url ↦ (status, body)`. -/
def htmlStep (fetch : String → Nat × String) (acc : Option Master) (url : String) :
    Option Master :=
  match acc with
  | none => none
  | some master =>
    let res := fetch url
    if res.1 ≠ 200 || res.2 = "" then some master
    else
      match extract_store_json_from_html res.2 with
      | none => some master
      | some store =>
        match extract_epg store with
        | none => none
        | some stations =>
          if stations.isEmpty then some master else merge master stations

/-- The per-payload body of `main`'s POST fallback loop (source lines
350–365).  `post` is the XHR oracle `payload ↦ (status, parsed json)`. -/
def postStep (post : String → Nat × Option JSON) (acc : Option Master)
    (payload : Option String) : Option Master :=
  match acc with
  | none => none
  | some master =>
    match payload with
    | none => some master
    | some p =>
      let res := post p
      if res.1 ≠ 200 then some master
      else
        match res.2 with
        | none => some master
        | some j =>
          match extract_epg j with
          | none => none
          | some stations =>
            if stations.isEmpty then some master else merge master stations

/-- The exit status of `main` (source lines 310–380) after argument
parsing, over oracles for the two network calls.  `none` models a run
killed by an uncaught exception.  With no `--url` arguments the
built-in `apply_live_urls` list is substituted (lines 312–313); the
only explicit exit statuses are 3 (nothing aggregated) and 0. -/
def main_exit (argvUrls : List String) (fetch : String → Nat × String)
    (payload1 payload2 : Option String) (post : String → Nat × Option JSON) :
    Option Nat :=
  let urls := if argvUrls.isEmpty then apply_live_urls else argvUrls
  (urls.foldl (htmlStep fetch) (some [])).bind (fun master =>
    (if master.isEmpty && (payload1.isSome || payload2.isSome) then
        [payload1, payload2].foldl (postStep post) (some master)
      else some master).bind (fun m2 =>
        some (if m2.isEmpty then 3 else 0)))

/-! # Theorems -/

/-! ## C7: `slugify` -/

lemma isSlugChar_not_space {c : Char} (h : isSlugChar c = true) :
    isPySpace c = false := by
  simp only [isSlugChar, Bool.or_eq_true, Bool.and_eq_true, decide_eq_true_eq] at h
  simp only [isPySpace, Bool.or_eq_false_iff, decide_eq_false_iff_not]
  omega

lemma pyStrip_of_no_space {l : List Char} (h : ∀ c ∈ l, isPySpace c = false) :
    pyStrip l = l := by
  have drop : ∀ m : List Char, (∀ c ∈ m, isPySpace c = false) →
      m.dropWhile isPySpace = m := by
    intro m hm
    cases m with
    | nil => rfl
    | cons c r => simp [List.dropWhile_cons, hm c (List.mem_cons_self c r)]
  unfold pyStrip
  rw [drop l h, drop l.reverse (fun c hc => h c (List.mem_reverse.mp hc)),
    List.reverse_reverse]

lemma collapseWs_of_no_space {l : List Char} (h : ∀ c ∈ l, isPySpace c = false) :
    collapseWs l false = l := by
  induction l with
  | nil => rfl
  | cons c r ih =>
    have hc := h c (List.mem_cons_self c r)
    simp [collapseWs, hc, ih (fun d hd => h d (List.mem_cons_of_mem c hd))]

lemma slugifyL_eq (l : List Char) :
    slugifyL l =
      if (List.filter isSlugChar (collapseWs (pyStrip l) false)).isEmpty
      then "unknown".data
      else List.filter isSlugChar (collapseWs (pyStrip l) false) := rfl

lemma slugifyL_chars {l : List Char} : ∀ c ∈ slugifyL l, isSlugChar c = true := by
  intro c hc
  rw [slugifyL_eq] at hc
  split at hc
  · exact (by decide : ∀ d ∈ "unknown".data, isSlugChar d = true) c hc
  · exact List.of_mem_filter hc

lemma slugifyL_ne_nil (l : List Char) : slugifyL l ≠ [] := by
  rw [slugifyL_eq]
  split
  · decide
  · next h => exact fun hh => h (by simp [hh])

lemma slugifyL_fixed {l : List Char} (h : ∀ c ∈ l, isSlugChar c = true)
    (hne : l ≠ []) : slugifyL l = l := by
  have hns : ∀ c ∈ l, isPySpace c = false := fun c hc => isSlugChar_not_space (h c hc)
  rw [slugifyL_eq, pyStrip_of_no_space hns, collapseWs_of_no_space hns,
    List.filter_eq_self.mpr h]
  simp [hne]

/-- C7: `slugify` is idempotent, maps the empty string to the
`"unknown"` placeholder, and always yields a nonempty string whose
characters all lie in `[A-Za-z0-9_.-]`. -/
theorem slugify_spec (s : String) :
    slugify (slugify s) = slugify s ∧ slugify "" = "unknown" ∧
      slugify s ≠ "" ∧ ∀ c ∈ (slugify s).data, isSlugChar c = true := by
  refine ⟨?_, by decide, ?_, ?_⟩
  · show String.mk (slugifyL (slugifyL s.data)) = String.mk (slugifyL s.data)
    rw [slugifyL_fixed (fun c hc => slugifyL_chars c hc) (slugifyL_ne_nil _)]
  · intro h
    have hdata : slugifyL s.data = ([] : List Char) := congrArg String.data h
    exact slugifyL_ne_nil s.data hdata
  · exact fun c hc => slugifyL_chars c hc

/-! ## C10: channel fallback to `"unknown"` -/

lemma pyOrJ_falsy {a : Option JSON} {b : JSON} (h : otruthy a = false) :
    pyOrJ a b = b := by
  cases a with
  | none => rfl
  | some v => simp [pyOrJ, show jtruthy v = false from h]

/-- C10: a station whose `id` and `name` are both absent or falsy gets
channel id `"unknown"` and display-name `"unknown"`, in both channel-id
modes and with or without slugification. -/
theorem channel_unknown_fallback (st : JObj) (useNames slugIds : Bool)
    (hid : otruthy (pyGet st "id") = false)
    (hname : otruthy (pyGet st "name") = false) :
    channel_of_station st useNames slugIds = (.str "unknown", .str "unknown") := by
  have hslug : slugify "unknown" = "unknown" := by decide
  simp only [channel_of_station, pyOrJ_falsy hid, pyOrJ_falsy hname]
  cases useNames <;> cases slugIds <;> simp [hslug]

/-- Witness for C10 at a concrete station with a present-but-falsy
`id` and a null `name`. -/
theorem channel_unknown_fallback_witness :
    channel_of_station (JObj.ofList [("id", .str ""), ("name", .null)]) false true
      = (.str "unknown", .str "unknown") :=
  channel_unknown_fallback _ false true (by decide) (by decide)

/-! ## C9: malformed schedule entries are skipped per-entry -/

lemma toList_ofList (l : List JSON) : (JArr.ofList l).toList = l := by
  induction l with
  | nil => rfl
  | cons v vs ih => simp [JArr.ofList, JArr.toList, ih]

lemma malformed_no_programme {it : JSON} (h : malformedEntry it = true) :
    programme_of_entry it = none := by
  cases it with
  | obj fs =>
    simp only [malformedEntry] at h
    simp only [programme_of_entry]
    cases hs : pyGet fs "start" with
    | none => simp [hs]
    | some sv =>
      cases he : pyGet fs "end" with
      | none => simp [hs, he]
      | some ev =>
        simp only [hs, he] at h
        rcases Bool.or_eq_true_iff.mp h with h1 | h1
        · simp [hs, he, Option.isNone_iff_eq_none.mp h1]
        · rcases hsi : pyInt sv with _ | si <;>
            simp [hs, he, hsi, Option.isNone_iff_eq_none.mp h1]
  | null => rfl
  | bool b => rfl
  | num n => rfl
  | str s => rfl
  | arr a => rfl

/-- C9: an entry with a missing `start`/`end`, or values `int(...)`
cannot coerce, contributes no programme element and raises no error —
the other entries of the same station are emitted exactly as if the
malformed entry were not there. -/
theorem build_skips_malformed_entry (st1 st2 : JObj) (xs ys : List JSON)
    (bad : JSON) (hbad : malformedEntry bad = true)
    (h1 : pyGet st1 "schedule" = some (.arr (JArr.ofList (xs ++ bad :: ys))))
    (h2 : pyGet st2 "schedule" = some (.arr (JArr.ofList (xs ++ ys)))) :
    programmes_of_station st1 = programmes_of_station st2 := by
  unfold programmes_of_station
  rw [h1, h2]
  simp [toList_ofList, List.filterMap_append, List.filterMap_cons,
    malformed_no_programme hbad]

/-- Witness for C9: a station with a non-numeric `start` string between
two well-formed entries drops exactly that entry. -/
theorem build_skips_malformed_entry_witness :
    programmes_of_station (JObj.ofList [("schedule", jarr
      [jobj [("start", .num 1), ("end", .num 2),
             ("metadata", jobj [("title", .str "A")])],
       jobj [("start", .str "soon"), ("end", .num 9)],
       jobj [("start", .num 3), ("end", .num 4),
             ("metadata", jobj [("title", .str "B")])]])]) =
    programmes_of_station (JObj.ofList [("schedule", jarr
      [jobj [("start", .num 1), ("end", .num 2),
             ("metadata", jobj [("title", .str "A")])],
       jobj [("start", .num 3), ("end", .num 4),
             ("metadata", jobj [("title", .str "B")])]])]) :=
  build_skips_malformed_entry _ _
    [jobj [("start", .num 1), ("end", .num 2),
           ("metadata", jobj [("title", .str "A")])]]
    [jobj [("start", .num 3), ("end", .num 4),
           ("metadata", jobj [("title", .str "B")])]]
    (jobj [("start", .str "soon"), ("end", .num 9)])
    (by decide) (by decide) (by decide)

/-! ## C6: exit status when no URL is supplied -/

/-- C6 counterexample: with no source URLs supplied (and every network
interaction failing), `main` exits with status 3, not 2 — the no-URL
case substitutes the built-in default URL list instead of exiting. -/
theorem main_exit_no_urls_counterexample :
    main_exit [] (fun _ => (0, "")) none none (fun _ => (0, none)) = some 3 ∧
      (3 : Nat) ≠ 2 := by
  constructor
  · rfl
  · decide

/-- C6 amended: when no source URL is supplied, `main` substitutes the
built-in live-TV URL list and a normally terminating run exits with
status 0 or 3 — never 2. -/
theorem main_exit_no_urls_never_two (fetch : String → Nat × String)
    (payload1 payload2 : Option String) (post : String → Nat × Option JSON)
    (r : Nat) (h : main_exit [] fetch payload1 payload2 post = some r) :
    r = 0 ∨ r = 3 := by
  simp only [main_exit, Option.bind_eq_some] at h
  obtain ⟨master, -, m2, -, hr⟩ := h
  have hr' := Option.some.inj hr
  subst hr'
  cases m2.isEmpty <;> simp

/-- Witness for C6's amended statement at the all-failing oracles. -/
theorem main_exit_no_urls_never_two_witness :
    main_exit [] (fun _ => (0, "")) none none (fun _ => (0, none)) = some 3 ∧
      ((3 : Nat) = 0 ∨ (3 : Nat) = 3) :=
  ⟨rfl, main_exit_no_urls_never_two (fun _ => (0, "")) none none
    (fun _ => (0, none)) 3 rfl⟩

/-! ## C5: the station extractor deduplicates stably -/

lemma ofList_toList : ∀ a : JArr, JArr.ofList a.toList = a
  | .nil => rfl
  | .cons v vs => by simp [JArr.toList, JArr.ofList, ofList_toList vs]

lemma lookupMaster_setMaster_self : ∀ (m : Master) (k : Key) (v : JObj),
    lookupMaster (setMaster m k v) k = some v
  | [], k, v => by simp [setMaster, lookupMaster]
  | (k0, w) :: rest, k, v => by
    by_cases h : k0 = k
    · simp [setMaster, h, lookupMaster]
    · simp [setMaster, h, lookupMaster, lookupMaster_setMaster_self rest k v]

lemma lookupMaster_setMaster_other {k' k : Key} (h : k' ≠ k) :
    ∀ (m : Master) (v : JObj),
      lookupMaster (setMaster m k v) k' = lookupMaster m k'
  | [], v => by
    have hne : ¬k = k' := fun he => h he.symm
    simp [setMaster, lookupMaster, hne]
  | (k0, w) :: rest, v => by
    by_cases h0 : k0 = k
    · subst h0
      have hne : ¬k0 = k' := fun he => h he.symm
      simp [setMaster, lookupMaster, hne]
    · simp only [setMaster, if_neg h0, lookupMaster]
      by_cases h1 : k0 = k'
      · simp [h1]
      · simp [h1, lookupMaster_setMaster_other h rest v]

lemma lookupField_set_self : ∀ (fs : JObj) (k : String) (v : JSON),
    lookupField (JObj.set fs k v) k = some v
  | .nil, k, v => by simp [JObj.set, lookupField]
  | .cons k0 w rest, k, v => by
    by_cases h : k0 = k
    · simp [JObj.set, h, lookupField]
    · simp [JObj.set, h, lookupField, lookupField_set_self rest k v]

lemma set_ne_nil (fs : JObj) (k : String) (v : JSON) : JObj.set fs k v ≠ .nil := by
  match fs with
  | .nil => simp [JObj.set]
  | .cons k0 w rest =>
    by_cases h : k0 = k <;> simp [JObj.set, h]

lemma removeField_set : ∀ (fs : JObj) (k : String) (v : JSON),
    removeField (JObj.set fs k v) k = removeField fs k
  | .nil, k, v => by simp [JObj.set, removeField]
  | .cons k0 w rest, k, v => by
    by_cases h : k0 = k
    · simp [JObj.set, h, removeField]
    · simp [JObj.set, h, removeField, removeField_set rest k v]

lemma setMaster_self : ∀ {m : Master} {k : Key} {v : JObj},
    lookupMaster m k = some v → setMaster m k v = m
  | [], k, v, h => by simp [lookupMaster] at h
  | (k0, w) :: rest, k, v, h => by
    by_cases h0 : k0 = k
    · subst h0
      simp only [lookupMaster, if_pos rfl] at h
      simp [setMaster, Option.some.inj h]
    · simp only [lookupMaster, if_neg h0] at h
      simp [setMaster, h0, setMaster_self h]

lemma JObj.set_self : ∀ {fs : JObj} {k : String} {v : JSON},
    lookupField fs k = some v → JObj.set fs k v = fs
  | .nil, k, v, h => by simp [lookupField] at h
  | .cons k0 w rest, k, v, h => by
    by_cases h0 : k0 = k
    · subst h0
      simp only [lookupField, if_pos rfl] at h
      simp [JObj.set, Option.some.inj h]
    · simp only [lookupField, if_neg h0] at h
      simp [JObj.set, h0, JObj.set_self h]

lemma mergeStation_shape {m : Master} {st : JObj} {m₂ : Master}
    (h : mergeStation m st = some m₂) :
    ∃ v, m₂ = setMaster m (stationKey st) v := by
  simp only [mergeStation, insertStation] at h
  repeat' split at h
  all_goals
    first
    | exact ⟨_, (Option.some.inj h).symm⟩
    | exact absurd h (by simp)

lemma mergeStation_existing {m : Master} {st cur : JObj} {m₂ : Master}
    (hcur : lookupMaster m (stationKey st) = some cur)
    (hne : cur ≠ .nil) (h : mergeStation m st = some m₂) :
    ∃ sched seen inc newEntries,
      curSchedOf cur = some sched ∧ seenSigs sched = some seen ∧
      pyListOf (pyGet st "schedule") = some inc ∧
      appendNew seen inc = some newEntries ∧
      m₂ = setMaster m (stationKey st)
        (JObj.set cur "schedule" (.arr (JArr.ofList (sched ++ newEntries)))) := by
  simp only [mergeStation, hcur, if_neg hne] at h
  rcases h1 : curSchedOf cur with _ | sched
  · simp [h1] at h
  · simp only [h1] at h
    rcases h2 : seenSigs sched with _ | seen
    · simp [h2] at h
    · simp only [h2] at h
      rcases h3 : pyListOf (pyGet st "schedule") with _ | inc
      · simp [h3] at h
      · simp only [h3] at h
        rcases h4 : appendNew seen inc with _ | newE
        · simp [h4] at h
        · simp only [h4] at h
          exact ⟨sched, seen, inc, newE, rfl, h2, rfl, h4,
            (Option.some.inj h).symm⟩

lemma schedListOf_of_curSchedOf {cur : JObj} {sched : List JSON}
    (h : curSchedOf cur = some sched) : schedListOf cur = sched := by
  unfold curSchedOf at h
  unfold schedListOf
  rcases hl : lookupField cur "schedule" with _ | v
  · simp only [hl] at h
    simp [Option.some.inj h]
  · cases v <;> simp only [hl] at h ⊢ <;> first
      | exact Option.some.inj h
      | cases h

lemma mergeStation_preserves {m : Master} {st : JObj} {m₂ : Master}
    (h : mergeStation m st = some m₂) {key : Key} {cur : JObj}
    (hlk : lookupMaster m key = some cur) (hne : cur ≠ .nil) :
    ∃ cur', lookupMaster m₂ key = some cur' ∧ cur' ≠ .nil ∧
      removeField cur' "schedule" = removeField cur "schedule" ∧
      ∃ tail, schedListOf cur' = schedListOf cur ++ tail := by
  by_cases hk : stationKey st = key
  · subst hk
    obtain ⟨sched, seen, inc, newE, h1, h2, h3, h4, rfl⟩ :=
      mergeStation_existing hlk hne h
    refine ⟨JObj.set cur "schedule" (.arr (JArr.ofList (sched ++ newE))),
      lookupMaster_setMaster_self _ _ _, set_ne_nil _ _ _,
      removeField_set _ _ _, newE, ?_⟩
    rw [schedListOf_of_curSchedOf h1]
    simp [schedListOf, lookupField_set_self, toList_ofList]
  · obtain ⟨v, rfl⟩ := mergeStation_shape h
    exact ⟨cur, by
        rw [lookupMaster_setMaster_other (fun he => hk he.symm)]
        exact hlk,
      hne, rfl, [], by simp⟩

/-- C3 amended: provided the existing entry for the key is non-empty
(as every entry `merge` itself creates is), a later merge leaves all
its non-schedule fields unchanged and only appends schedule entries. -/
theorem merge_preserves_existing {m : Master} {L : List JObj} {m' : Master}
    (h : merge m L = some m') {key : Key} {cur : JObj}
    (hlk : lookupMaster m key = some cur) (hne : cur ≠ JObj.nil) :
    ∃ cur', lookupMaster m' key = some cur' ∧ cur' ≠ JObj.nil ∧
      removeField cur' "schedule" = removeField cur "schedule" ∧
      ∃ tail, schedListOf cur' = schedListOf cur ++ tail := by
  induction L generalizing m cur with
  | nil =>
    simp only [merge] at h
    obtain rfl := Option.some.inj h
    exact ⟨cur, hlk, hne, rfl, [], by simp⟩
  | cons st rest ih =>
    simp only [merge] at h
    rcases hms : mergeStation m st with _ | m₂
    · simp [hms] at h
    · simp only [hms] at h
      obtain ⟨cur₂, hlk₂, hne₂, hrm₂, t₁, hs₂⟩ := mergeStation_preserves hms hlk hne
      obtain ⟨cur', hlk', hne', hrm', t₂, hs'⟩ := ih h hlk₂ hne₂
      exact ⟨cur', hlk', hne', hrm'.trans hrm₂, t₁ ++ t₂, by
        rw [hs', hs₂, List.append_assoc]⟩

/-- C3 counterexample: Python's `if not cur:` is a truthiness test, so
merging a station whose key is already bound to an *empty* dict
replaces the whole entry — here the existing entry gains a `logo` it
never had, refuting the claim for arbitrary master maps. -/
theorem merge_overwrites_empty_existing :
    merge [((none, none), JObj.nil)] [JObj.ofList [("logo", JSON.str "x")]] =
      some [((none, none),
        JObj.ofList [("logo", JSON.str "x"), ("schedule", JSON.arr JArr.nil)])] ∧
    lookupField JObj.nil "logo" = none ∧
    lookupField (JObj.ofList [("logo", JSON.str "x"), ("schedule", JSON.arr JArr.nil)])
      "logo" = some (JSON.str "x") := by
  refine ⟨rfl, rfl, rfl⟩

/-- Witness for C3's amended statement at a concrete merge into an
existing non-empty entry. -/
theorem merge_preserves_existing_witness :
    ∃ cur', lookupMaster
        [((some (JSON.str "a"), some (JSON.str "b")),
          JObj.ofList [("logo", JSON.str "L"),
                       ("schedule", jarr [jobj [("start", JSON.num 1), ("end", JSON.num 2),
                          ("metadata", jobj [("title", JSON.str "T")])]])])]
        (some (JSON.str "a"), some (JSON.str "b")) = some cur' ∧ cur' ≠ JObj.nil ∧
      removeField cur' "schedule" =
        removeField (JObj.ofList [("logo", JSON.str "L"),
          ("schedule", jarr [jobj [("start", JSON.num 1), ("end", JSON.num 2),
            ("metadata", jobj [("title", JSON.str "T")])]])]) "schedule" ∧
      ∃ tail, schedListOf cur' =
        schedListOf (JObj.ofList [("logo", JSON.str "L"),
          ("schedule", jarr [jobj [("start", JSON.num 1), ("end", JSON.num 2),
            ("metadata", jobj [("title", JSON.str "T")])]])]) ++ tail :=
  @merge_preserves_existing
    [((some (JSON.str "a"), some (JSON.str "b")),
      JObj.ofList [("logo", JSON.str "L"),
        ("schedule", jarr [jobj [("start", JSON.num 1), ("end", JSON.num 2),
          ("metadata", jobj [("title", JSON.str "T")])]])])]
    [JObj.ofList [("id", JSON.str "a"), ("name", JSON.str "b")]]
    [((some (JSON.str "a"), some (JSON.str "b")),
      JObj.ofList [("logo", JSON.str "L"),
        ("schedule", jarr [jobj [("start", JSON.num 1), ("end", JSON.num 2),
          ("metadata", jobj [("title", JSON.str "T")])]])])]
    (by decide)
    (some (JSON.str "a"), some (JSON.str "b"))
    (JObj.ofList [("logo", JSON.str "L"),
      ("schedule", jarr [jobj [("start", JSON.num 1), ("end", JSON.num 2),
        ("metadata", jobj [("title", JSON.str "T")])]])])
    (by decide) (by decide)

lemma seenSigs_append {xs : List JSON} :
    ∀ {sx : List Sig} {ys : List JSON} {sy : List Sig},
      seenSigs xs = some sx → seenSigs ys = some sy →
      seenSigs (xs ++ ys) = some (sx ++ sy) := by
  induction xs with
  | nil =>
    intro sx ys sy hx hy
    simp only [seenSigs] at hx
    obtain rfl := Option.some.inj hx
    simpa using hy
  | cons hd rest ih =>
    intro sx ys sy hx hy
    cases hd with
    | obj it =>
      simp only [seenSigs] at hx
      rcases hsig : schedSig it with _ | s
      · simp [hsig] at hx
      · simp only [hsig] at hx
        rcases hrest : seenSigs rest with _ | sr
        · simp [hrest] at hx
        · simp only [hrest] at hx
          obtain rfl := Option.some.inj hx
          simp [List.cons_append, seenSigs, hsig, ih hrest hy]
    | null => simp only [List.cons_append, seenSigs] at hx ⊢; exact ih hx hy
    | bool b => simp only [List.cons_append, seenSigs] at hx ⊢; exact ih hx hy
    | num n => simp only [List.cons_append, seenSigs] at hx ⊢; exact ih hx hy
    | str s => simp only [List.cons_append, seenSigs] at hx ⊢; exact ih hx hy
    | arr a => simp only [List.cons_append, seenSigs] at hx ⊢; exact ih hx hy

lemma seenSigs_mem {l : List JSON} :
    ∀ {seen : List Sig} {it : JObj} {s : Sig},
      seenSigs l = some seen → JSON.obj it ∈ l → schedSig it = some s →
      s ∈ seen := by
  induction l with
  | nil => intro seen it s _ hmem; simp at hmem
  | cons hd rest ih =>
    intro seen it s h hmem hs
    cases hd with
    | obj it0 =>
      simp only [seenSigs] at h
      rcases hsig : schedSig it0 with _ | s0
      · simp [hsig] at h
      · simp only [hsig] at h
        rcases hrest : seenSigs rest with _ | sr
        · simp [hrest] at h
        · simp only [hrest] at h
          obtain rfl := Option.some.inj h
          rcases List.mem_cons.mp hmem with he | hm
          · obtain rfl : it = it0 := by injection he
            rw [hs] at hsig
            obtain rfl := Option.some.inj hsig
            exact List.mem_cons_self _ _
          · exact List.mem_cons_of_mem _ (ih hrest hm hs)
    | null =>
      simp only [seenSigs] at h
      rcases List.mem_cons.mp hmem with he | hm
      · exact absurd he (by simp)
      · exact ih h hm hs
    | bool b =>
      simp only [seenSigs] at h
      rcases List.mem_cons.mp hmem with he | hm
      · exact absurd he (by simp)
      · exact ih h hm hs
    | num n =>
      simp only [seenSigs] at h
      rcases List.mem_cons.mp hmem with he | hm
      · exact absurd he (by simp)
      · exact ih h hm hs
    | str s0 =>
      simp only [seenSigs] at h
      rcases List.mem_cons.mp hmem with he | hm
      · exact absurd he (by simp)
      · exact ih h hm hs
    | arr a =>
      simp only [seenSigs] at h
      rcases List.mem_cons.mp hmem with he | hm
      · exact absurd he (by simp)
      · exact ih h hm hs

lemma seenSigs_isSome_of_good {l : List JSON} (h : ∀ e ∈ l, goodEntry e = true) :
    ∃ seen, seenSigs l = some seen := by
  induction l with
  | nil => exact ⟨[], rfl⟩
  | cons hd rest ih =>
    have hrest := ih (fun e he => h e (List.mem_cons_of_mem hd he))
    obtain ⟨sr, hsr⟩ := hrest
    cases hd with
    | obj it =>
      have hg := h (JSON.obj it) (List.mem_cons_self _ _)
      simp only [goodEntry, Option.isSome_iff_exists] at hg
      obtain ⟨s, hs⟩ := hg
      exact ⟨s :: sr, by simp [seenSigs, hs, hsr]⟩
    | null => exact ⟨sr, by simpa [seenSigs] using hsr⟩
    | bool b => exact ⟨sr, by simpa [seenSigs] using hsr⟩
    | num n => exact ⟨sr, by simpa [seenSigs] using hsr⟩
    | str s => exact ⟨sr, by simpa [seenSigs] using hsr⟩
    | arr a => exact ⟨sr, by simpa [seenSigs] using hsr⟩

lemma appendNew_all_seen {inc : List JSON} :
    ∀ {seen : List Sig},
      (∀ it : JObj, JSON.obj it ∈ inc → ∃ s, schedSig it = some s ∧ s ∈ seen) →
      appendNew seen inc = some [] := by
  induction inc with
  | nil => intro seen _; rfl
  | cons hd rest ih =>
    intro seen h
    cases hd with
    | obj it =>
      obtain ⟨s, hs, hmem⟩ := h it (List.mem_cons_self _ _)
      simp only [appendNew, hs, if_pos hmem]
      exact ih (fun it' h' => h it' (List.mem_cons_of_mem _ h'))
    | null => exact ih (fun it' h' => h it' (List.mem_cons_of_mem _ h'))
    | bool b => exact ih (fun it' h' => h it' (List.mem_cons_of_mem _ h'))
    | num n => exact ih (fun it' h' => h it' (List.mem_cons_of_mem _ h'))
    | str s => exact ih (fun it' h' => h it' (List.mem_cons_of_mem _ h'))
    | arr a => exact ih (fun it' h' => h it' (List.mem_cons_of_mem _ h'))

lemma appendNew_sigs {inc : List JSON} :
    ∀ {seen : List Sig} {newE : List JSON},
      appendNew seen inc = some newE →
      ∃ sy, seenSigs newE = some sy ∧
        ∀ it : JObj, JSON.obj it ∈ inc →
          ∃ s, schedSig it = some s ∧ (s ∈ seen ∨ s ∈ sy) := by
  induction inc with
  | nil =>
    intro seen newE h
    simp only [appendNew] at h
    obtain rfl := Option.some.inj h
    exact ⟨[], rfl, fun it hmem => by simp at hmem⟩
  | cons hd rest ih =>
    intro seen newE h
    cases hd with
    | obj it =>
      simp only [appendNew] at h
      rcases hsig : schedSig it with _ | s
      · simp [hsig] at h
      · simp only [hsig] at h
        by_cases hmem : s ∈ seen
        · rw [if_pos hmem] at h
          obtain ⟨sy, hsy, hall⟩ := ih h
          refine ⟨sy, hsy, fun it' hit' => ?_⟩
          rcases List.mem_cons.mp hit' with he | hm
          · obtain rfl : it' = it := by injection he
            exact ⟨s, hsig, Or.inl hmem⟩
          · exact hall it' hm
        · rw [if_neg hmem] at h
          rcases hrec : appendNew (s :: seen) rest with _ | r
          · simp [hrec] at h
          · simp only [hrec] at h
            obtain rfl := Option.some.inj h
            obtain ⟨syr, hsyr, hall⟩ := ih hrec
            refine ⟨s :: syr, by simp [seenSigs, hsig, hsyr], fun it' hit' => ?_⟩
            rcases List.mem_cons.mp hit' with he | hm
            · obtain rfl : it' = it := by injection he
              exact ⟨s, hsig, Or.inr (List.mem_cons_self _ _)⟩
            · obtain ⟨s', hs', hor⟩ := hall it' hm
              refine ⟨s', hs', ?_⟩
              rcases hor with hseen | hsy
              · rcases List.mem_cons.mp hseen with rfl | hseen'
                · exact Or.inr (List.mem_cons_self _ _)
                · exact Or.inl hseen'
              · exact Or.inr (List.mem_cons_of_mem _ hsy)
    | null =>
      simp only [appendNew] at h
      obtain ⟨sy, hsy, hall⟩ := ih h
      refine ⟨sy, hsy, fun it' hit' => ?_⟩
      rcases List.mem_cons.mp hit' with he | hm
      · exact absurd he (by simp)
      · exact hall it' hm
    | bool b =>
      simp only [appendNew] at h
      obtain ⟨sy, hsy, hall⟩ := ih h
      refine ⟨sy, hsy, fun it' hit' => ?_⟩
      rcases List.mem_cons.mp hit' with he | hm
      · exact absurd he (by simp)
      · exact hall it' hm
    | num n =>
      simp only [appendNew] at h
      obtain ⟨sy, hsy, hall⟩ := ih h
      refine ⟨sy, hsy, fun it' hit' => ?_⟩
      rcases List.mem_cons.mp hit' with he | hm
      · exact absurd he (by simp)
      · exact hall it' hm
    | str s0 =>
      simp only [appendNew] at h
      obtain ⟨sy, hsy, hall⟩ := ih h
      refine ⟨sy, hsy, fun it' hit' => ?_⟩
      rcases List.mem_cons.mp hit' with he | hm
      · exact absurd he (by simp)
      · exact hall it' hm
    | arr a =>
      simp only [appendNew] at h
      obtain ⟨sy, hsy, hall⟩ := ih h
      refine ⟨sy, hsy, fun it' hit' => ?_⟩
      rcases List.mem_cons.mp hit' with he | hm
      · exact absurd he (by simp)
      · exact hall it' hm

lemma settled_mergeStation {m : Master} {st : JObj} (h : settled m st) :
    mergeStation m st = some m := by
  obtain ⟨cur, a, seen, hlk, hne, hsched, hsigs, inc, hinc, hall⟩ := h
  have hcs : curSchedOf cur = some a.toList := by simp [curSchedOf, hsched]
  simp only [mergeStation, hlk, if_neg hne, hcs, hsigs, hinc,
    appendNew_all_seen hall, List.append_nil, ofList_toList,
    JObj.set_self hsched, setMaster_self hlk]

lemma insertStation_settles {m : Master} {st : JObj} {m₂ : Master}
    (hg : goodStation st = true)
    (h : insertStation m (stationKey st) st = some m₂) : settled m₂ st := by
  simp only [insertStation] at h
  rcases hp : pyListOf (pyGet st "schedule") with _ | inc
  · simp [hp] at h
  · simp only [hp] at h
    obtain rfl := Option.some.inj h
    have hgood : ∀ e ∈ inc, goodEntry e = true := by
      have := hg
      unfold goodStation at this
      rw [hp] at this
      exact fun e he => List.all_eq_true.mp this e he
    obtain ⟨seen, hseen⟩ := seenSigs_isSome_of_good hgood
    refine ⟨JObj.set st "schedule" (.arr (JArr.ofList inc)), JArr.ofList inc, seen,
      lookupMaster_setMaster_self _ _ _, set_ne_nil _ _ _,
      lookupField_set_self _ _ _, by rwa [toList_ofList], inc, hp, ?_⟩
    intro it hit
    have hge := hgood _ hit
    simp only [goodEntry, Option.isSome_iff_exists] at hge
    obtain ⟨s, hs⟩ := hge
    exact ⟨s, hs, seenSigs_mem hseen hit hs⟩

lemma mergeStation_settles {m : Master} {st : JObj} {m₂ : Master}
    (hg : goodStation st = true) (h : mergeStation m st = some m₂) :
    settled m₂ st := by
  rcases hl : lookupMaster m (stationKey st) with _ | cur
  · exact @insertStation_settles m st m₂ hg (by simpa only [mergeStation, hl] using h)
  · by_cases hnil : cur = .nil
    · exact @insertStation_settles m st m₂ hg
        (by simpa only [mergeStation, hl, if_pos hnil] using h)
    · obtain ⟨sched, seen, inc, newE, h1, h2, h3, h4, rfl⟩ :=
        mergeStation_existing hl hnil h
      obtain ⟨sy, hsy, hall⟩ := appendNew_sigs h4
      refine ⟨JObj.set cur "schedule" (.arr (JArr.ofList (sched ++ newE))),
        JArr.ofList (sched ++ newE), seen ++ sy,
        lookupMaster_setMaster_self _ _ _, set_ne_nil _ _ _,
        lookupField_set_self _ _ _,
        by rw [toList_ofList]; exact seenSigs_append h2 hsy, inc, h3, ?_⟩
      intro it hit
      obtain ⟨s, hs, hor⟩ := hall it hit
      exact ⟨s, hs, List.mem_append.mpr hor⟩

lemma mergeStation_preserves_settled {m : Master} {st' st : JObj} {m₂ : Master}
    (hs : settled m st) (h : mergeStation m st' = some m₂) : settled m₂ st := by
  obtain ⟨cur, a, seen, hlk, hne, hsched, hsigs, inc, hinc, hall⟩ := hs
  by_cases hk : stationKey st' = stationKey st
  · have hlk' : lookupMaster m (stationKey st') = some cur := by rw [hk]; exact hlk
    obtain ⟨sched, seen', inc', newE, h1, h2, h3, h4, rfl⟩ :=
      mergeStation_existing hlk' hne h
    have hsched' : sched = a.toList := by
      have : curSchedOf cur = some a.toList := by simp [curSchedOf, hsched]
      rw [this] at h1
      exact (Option.some.inj h1).symm
    subst hsched'
    rw [hsigs] at h2
    obtain rfl := Option.some.inj h2
    obtain ⟨sy, hsy, -⟩ := appendNew_sigs h4
    refine ⟨JObj.set cur "schedule" (.arr (JArr.ofList (a.toList ++ newE))),
      JArr.ofList (a.toList ++ newE), seen ++ sy,
      by rw [← hk]; exact lookupMaster_setMaster_self _ _ _,
      set_ne_nil _ _ _, lookupField_set_self _ _ _,
      by rw [toList_ofList]; exact seenSigs_append hsigs hsy, inc, hinc, ?_⟩
    intro it hit
    obtain ⟨s, hs, hmem⟩ := hall it hit
    exact ⟨s, hs, List.mem_append.mpr (Or.inl hmem)⟩
  · obtain ⟨v, rfl⟩ := mergeStation_shape h
    exact ⟨cur, a, seen,
      by rw [lookupMaster_setMaster_other (fun he => hk he.symm)]; exact hlk,
      hne, hsched, hsigs, inc, hinc, hall⟩

lemma merge_preserves_settled {L : List JObj} :
    ∀ {m m' : Master} {st : JObj}, settled m st → merge m L = some m' →
      settled m' st := by
  induction L with
  | nil =>
    intro m m' st hs h
    simp only [merge] at h
    obtain rfl := Option.some.inj h
    exact hs
  | cons st0 rest ih =>
    intro m m' st hs h
    simp only [merge] at h
    rcases hms : mergeStation m st0 with _ | m₂
    · simp [hms] at h
    · simp only [hms] at h
      exact ih (mergeStation_preserves_settled hs hms) h

lemma merge_settles_all {L : List JObj} :
    ∀ {m m' : Master}, (∀ st ∈ L, goodStation st = true) →
      merge m L = some m' → ∀ st ∈ L, settled m' st := by
  induction L with
  | nil => intro m m' _ _ st hst; simp at hst
  | cons st0 rest ih =>
    intro m m' hg h st hst
    simp only [merge] at h
    rcases hms : mergeStation m st0 with _ | m₂
    · simp [hms] at h
    · simp only [hms] at h
      rcases List.mem_cons.mp hst with rfl | hmem
      · exact merge_preserves_settled
          (mergeStation_settles (hg st (List.mem_cons_self _ _)) hms) h
      · exact ih (fun s hs => hg s (List.mem_cons_of_mem _ hs)) h st hmem

lemma merge_of_settled {L : List JObj} :
    ∀ {m : Master}, (∀ st ∈ L, settled m st) → merge m L = some m := by
  induction L with
  | nil => intro m _; rfl
  | cons st0 rest ih =>
    intro m hs
    simp only [merge, settled_mergeStation (hs st0 (List.mem_cons_self _ _))]
    exact ih (fun s h => hs s (List.mem_cons_of_mem _ h))

/-- C4: merging the same station list a second time adds zero schedule
entries — the master map is left exactly as it was.  The hypothesis
restricts to stations conforming to the spec's data model (iterable
`schedule`, entry `metadata` absent, falsy or a mapping): outside it
Python's signature computation raises instead of merging. -/
theorem merge_self_idempotent {m m' : Master} {L : List JObj}
    (hgood : ∀ st ∈ L, goodStation st = true)
    (h : merge m L = some m') : merge m' L = some m' :=
  merge_of_settled (merge_settles_all hgood h)

/-- Witness for C4: a concrete double merge of one station into an
empty master map. -/
theorem merge_self_idempotent_witness :
    merge [((some (JSON.str "a"), some (JSON.str "b")),
      JObj.ofList [("id", JSON.str "a"), ("name", JSON.str "b"),
        ("schedule", jarr [jobj [("start", JSON.num 1), ("end", JSON.num 2),
          ("metadata", jobj [("title", JSON.str "T")])]])])]
      [JObj.ofList [("id", JSON.str "a"), ("name", JSON.str "b"),
        ("schedule", jarr [jobj [("start", JSON.num 1), ("end", JSON.num 2),
          ("metadata", jobj [("title", JSON.str "T")])]])]] =
    some [((some (JSON.str "a"), some (JSON.str "b")),
      JObj.ofList [("id", JSON.str "a"), ("name", JSON.str "b"),
        ("schedule", jarr [jobj [("start", JSON.num 1), ("end", JSON.num 2),
          ("metadata", jobj [("title", JSON.str "T")])]])])] :=
  @merge_self_idempotent []
    [((some (JSON.str "a"), some (JSON.str "b")),
      JObj.ofList [("id", JSON.str "a"), ("name", JSON.str "b"),
        ("schedule", jarr [jobj [("start", JSON.num 1), ("end", JSON.num 2),
          ("metadata", jobj [("title", JSON.str "T")])]])])]
    [JObj.ofList [("id", JSON.str "a"), ("name", JSON.str "b"),
      ("schedule", jarr [jobj [("start", JSON.num 1), ("end", JSON.num 2),
        ("metadata", jobj [("title", JSON.str "T")])]])]]
    (by decide) (by decide)

/-! ## C2: live-event synthesis fallback (spec-modelled) -/

/-- C2: for the payload with zero EPG stations but one live `EVENT`
entity titled `"Breaking"`, the extractor finds nothing and the
synthesis fallback yields exactly one pseudo-station with one schedule
entry titled `"Breaking"` spanning `now .. now + 2h` (epoch
milliseconds).  `extract_or_synth` is modelled from the spec: the
synthesis routine is not part of `src/prime_livetv.py`. -/
theorem live_synthesis_breaking_scenario (now : Int) :
    extract_epg (jobj [("entities", jarr [jobj [("type", JSON.str "EVENT"),
        ("isLive", JSON.bool true), ("title", JSON.str "Breaking")]])]) = some [] ∧
    extract_or_synth (jobj [("entities", jarr [jobj [("type", JSON.str "EVENT"),
        ("isLive", JSON.bool true), ("title", JSON.str "Breaking")]])]) now =
      some [JObj.ofList [("id", JSON.str livePlaceholder),
        ("name", JSON.str livePlaceholder),
        ("schedule", jarr [jobj [("start", JSON.num now),
          ("end", JSON.num (now + 7200000)),
          ("metadata", jobj [("title", JSON.str "Breaking")])]])]] ∧
    (now + 7200000) - now = 2 * 60 * 60 * 1000 :=
  ⟨rfl, rfl, by omega⟩

/-! ## C1: the payload locator has no direct-parse strategy -/

lemma isPrefixOf_iff_append :
    ∀ (pat l : List Char), pat.isPrefixOf l = true ↔ ∃ t, l = pat ++ t
  | [], l => by simp [List.isPrefixOf]
  | p :: ps, [] => by simp [List.isPrefixOf]
  | p :: ps, c :: r => by
    simp only [List.isPrefixOf, Bool.and_eq_true, beq_iff_eq,
      isPrefixOf_iff_append ps r]
    constructor
    · rintro ⟨rfl, t, rfl⟩
      exact ⟨t, rfl⟩
    · rintro ⟨t, ht⟩
      injection ht with h1 h2
      exact ⟨h1.symm, t, h2⟩

lemma containsSub_iff_parts {pat : List Char} :
    ∀ {l : List Char}, containsSub pat l = true ↔ ∃ pre post, l = pre ++ pat ++ post := by
  intro l
  induction l with
  | nil =>
    simp only [containsSub, List.isEmpty_iff]
    constructor
    · rintro rfl
      exact ⟨[], [], rfl⟩
    · rintro ⟨pre, post, h⟩
      exact (List.append_eq_nil.mp (List.append_eq_nil.mp h.symm).1).2
  | cons c r ih =>
    simp only [containsSub, Bool.or_eq_true, isPrefixOf_iff_append, ih]
    constructor
    · rintro (⟨t, ht⟩ | ⟨pre, post, hp⟩)
      · exact ⟨[], t, by simpa using ht⟩
      · exact ⟨c :: pre, post, by simp [hp]⟩
    · rintro ⟨pre, post, hp⟩
      cases pre with
      | nil =>
        exact Or.inl ⟨post, by simpa using hp⟩
      | cons c0 pre' =>
        injection hp with h1 h2
        exact Or.inr ⟨pre', post, h2⟩

lemma containsSub_of_isPrefixOf {pat l : List Char}
    (h : pat.isPrefixOf l = true) : containsSub pat l = true := by
  obtain ⟨t, rfl⟩ := (isPrefixOf_iff_append pat l).mp h
  exact containsSub_iff_parts.mpr ⟨[], t, rfl⟩

lemma containsSub_cons {pat r : List Char} (c : Char)
    (h : containsSub pat r = true) : containsSub pat (c :: r) = true := by
  obtain ⟨pre, post, rfl⟩ := containsSub_iff_parts.mp h
  exact containsSub_iff_parts.mpr ⟨c :: pre, post, rfl⟩

lemma containsSub_drop {pat : List Char} :
    ∀ (l : List Char) (k : Nat),
      containsSub pat (l.drop k) = true → containsSub pat l = true
  | l, 0, h => by simpa using h
  | [], k + 1, h => by simpa using h
  | c :: r, k + 1, h => containsSub_cons c (containsSub_drop r k (by simpa using h))

lemma containsSub_append_right {pat a : List Char} (t : List Char)
    (h : containsSub pat a = true) : containsSub pat (a ++ t) = true := by
  obtain ⟨pre, post, rfl⟩ := containsSub_iff_parts.mp h
  exact containsSub_iff_parts.mpr ⟨pre, post ++ t, by simp⟩

lemma containsSub_takeWhile_map {pat l : List Char} {p : Char → Bool}
    (f : Char → Char)
    (h : containsSub pat ((l.takeWhile p).map f) = true) :
    containsSub pat (l.map f) = true := by
  have hsplit : l.map f = (l.takeWhile p).map f ++ (l.dropWhile p).map f := by
    rw [← List.map_append, List.takeWhile_append_dropWhile]
  rw [hsplit]
  exact containsSub_append_right _ h

lemma map_drop_eq (f : Char → Char) :
    ∀ (l : List Char) (k : Nat), (l.drop k).map f = (l.map f).drop k
  | _, 0 => rfl
  | [], _ + 1 => rfl
  | _ :: r, k + 1 => map_drop_eq f r k

lemma containsSub_false_cons {pat : List Char} {c : Char} {r : List Char}
    (h : containsSub pat (c :: r) = false) : containsSub pat r = false := by
  rcases hr : containsSub pat r with _ | _
  · rfl
  · rw [containsSub, hr, Bool.or_true] at h
    exact h

lemma scanPos_none {α : Type} (f : List Char → Option α) (P : List Char → Bool)
    (hf : ∀ t, f t ≠ none → P t = true)
    (hmono : ∀ (c : Char) (r : List Char), P r = true → P (c :: r) = true) :
    ∀ l, P l = false → scanPos f l = none := by
  intro l
  induction l with
  | nil =>
    intro h
    rcases hfe : f [] with _ | x
    · simp [scanPos, hfe]
    · exact absurd (hf [] (by simp [hfe])) (by simp [h])
  | cons c r ih =>
    intro h
    rcases hfe : f (c :: r) with _ | x
    · simp only [scanPos, hfe]
      apply ih
      rcases hr : P r with _ | _
      · rfl
      · exact absurd (hmono c r hr) (by simp [h])
    · exact absurd (hf (c :: r) (by simp [hfe])) (by simp [h])

lemma isPrefixOfCI_to_lower :
    ∀ (pat r : List Char), isPrefixOfCI pat r = true →
      (pat.map toLowerC).isPrefixOf (r.map toLowerC) = true
  | [], _ => by simp [isPrefixOfCI, List.isPrefixOf]
  | p :: ps, [] => by simp [isPrefixOfCI]
  | p :: ps, c :: cs => by
    simp only [isPrefixOfCI, Bool.and_eq_true, decide_eq_true_eq, List.map_cons,
      List.isPrefixOf, beq_iff_eq]
    rintro ⟨h1, h2⟩
    exact ⟨h1, isPrefixOfCI_to_lower ps cs h2⟩

lemma idAttrAt_marker {l : List Char}
    (h : idAttrAt l = true) :
    containsSub "dv-web-store-template".data (l.map toLowerC) = true := by
  simp only [idAttrAt, Bool.and_eq_true] at h
  obtain ⟨-, h2⟩ := h
  rcases hd : l.drop 3 with _ | ⟨q, r⟩
  · rw [hd] at h2
    exact absurd h2 (by simp)
  · rw [hd] at h2
    obtain ⟨⟨-, hpre⟩, -⟩ := by
      simpa only [Bool.and_eq_true] using h2
    refine containsSub_drop (l.map toLowerC) 4 ?_
    have hl4 : l.drop 4 = r := by
      have h34 : l.drop 4 = (l.drop 3).drop 1 := by
        rw [List.drop_drop]
      rw [h34, hd]
      rfl
    rw [← map_drop_eq, hl4]
    have hlow := isPrefixOfCI_to_lower "dv-web-store-template".data r hpre
    rw [show ("dv-web-store-template".data.map toLowerC)
        = "dv-web-store-template".data from by decide] at hlow
    exact containsSub_of_isPrefixOf hlow

lemma hasIdAttr_marker :
    ∀ {tag : List Char}, hasIdAttr tag = true →
      containsSub "dv-web-store-template".data (tag.map toLowerC) = true := by
  intro tag
  induction tag with
  | nil => intro h; simp [hasIdAttr] at h
  | cons c r ih =>
    intro h
    rcases Bool.or_eq_true_iff.mp (by simpa only [hasIdAttr] using h) with h1 | h1
    · exact containsSub_cons (toLowerC c) (idAttrAt_marker h1)
    · exact containsSub_cons (toLowerC c) (ih h1)

lemma scriptContentAt_marker (t : List Char)
    (h : scriptContentAt t ≠ none) :
    containsSub "dv-web-store-template".data (t.map toLowerC) = true := by
  simp only [scriptContentAt] at h
  by_cases hpre : isPrefixOfCI "<script".data t = true
  · rw [if_pos hpre] at h
    split at h
    · next hid =>
      have h1 := containsSub_takeWhile_map toLowerC (hasIdAttr_marker hid)
      rw [map_drop_eq] at h1
      exact containsSub_drop (t.map toLowerC) 7 h1
    · exact absurd rfl h
  · rw [if_neg hpre] at h
    exact absurd rfl h

lemma subIdx_none {pat : List Char} :
    ∀ {l : List Char}, containsSub pat l = false → subIdx l pat = none := by
  intro l
  induction l with
  | nil =>
    intro h
    have : pat.isEmpty = false := by simpa [containsSub] using h
    simp [subIdx, List.isEmpty_iff] at this ⊢
    exact this
  | cons c r ih =>
    intro h
    have h1 : pat.isPrefixOf (c :: r) = false := by
      rcases hp : pat.isPrefixOf (c :: r) with _ | _
      · rfl
      · rw [containsSub, hp, Bool.true_or] at h
        exact h
    simp [subIdx, h1, ih (containsSub_false_cons h)]

lemma apolloCaptureAt_marker (t : List Char)
    (h : apolloCaptureAt t ≠ none) :
    containsSub "window.__APOLLO_STATE__".data t = true := by
  by_cases hpre : "window.__APOLLO_STATE__".data.isPrefixOf t = true
  · exact containsSub_of_isPrefixOf hpre
  · exfalso
    apply h
    simp only [apolloCaptureAt]
    rw [if_neg hpre]

/-- C1 counterexample: `"[1,2,3]"` is valid JSON text whose trimmed
form starts with `[` (and the model's `json.loads` parses it), yet the
locator returns `None` — this variant has no direct-parse strategy. -/
theorem locator_direct_json_counterexample :
    pyJsonLoads "[1,2,3]".data = some (jarr [JSON.num 1, JSON.num 2, JSON.num 3]) ∧
    (pyStrip "[1,2,3]".data).head? = some '[' ∧
    extract_store_json_from_html "[1,2,3]" = none := by
  refine ⟨by decide, by decide, by decide⟩

/-- C1 amended: the locator has no direct-parse strategy — every input
containing none of the three literal markers (the store-template
script id anywhere case-insensitively, since `SCRIPT_ID_RE` carries
`re.I`; the `EpgGroup` container discriminator and the Apollo-state
assignment exactly, since `str.find` and `APOLLO_RE` are
case-sensitive) yields `None`, valid JSON or not. -/
theorem locator_no_direct_parse (html : String)
    (h1 : containsSub "dv-web-store-template".data (html.data.map toLowerC) = false)
    (h2 : containsSub "\"containerType\":\"EpgGroup\"".data html.data = false)
    (h3 : containsSub "window.__APOLLO_STATE__".data html.data = false) :
    extract_store_json_from_html html = none := by
  have hs1 : scriptStrategy html.data = none := by
    unfold scriptStrategy
    rw [scanPos_none scriptContentAt
      (fun t => containsSub "dv-web-store-template".data (t.map toLowerC))
      scriptContentAt_marker
      (fun c r hr => containsSub_cons (toLowerC c) hr)
      html.data h1]
  have hs2 : epgStrategy html.data = none := by
    unfold epgStrategy
    rw [subIdx_none h2]
  have hs3 : apolloStrategy html.data = none := by
    unfold apolloStrategy
    rw [scanPos_none apolloCaptureAt
      (fun t => containsSub "window.__APOLLO_STATE__".data t)
      apolloCaptureAt_marker
      (fun c r hr => containsSub_cons c hr)
      html.data h3]
  simp [extract_store_json_from_html, hs1, hs2, hs3]

/-- Witness for C1's amended statement on a concrete marker-free text. -/
theorem locator_no_direct_parse_witness :
    extract_store_json_from_html "[1, 2, 3] plus trailing text" = none :=
  locator_no_direct_parse "[1, 2, 3] plus trailing text"
    (by decide) (by decide) (by decide)

/-! ## C8: XMLTV time formatting

The round trip rests on the Gregorian conversion being its own inverse
(`civil_roundtrip`) and on zero-padded decimal rendering being
invertible (`fmt02_eq`/`fmt04_eq` with `c2d_digitChar`). -/

lemma civil_yoe_bounds (doe : Nat) (h : doe < 146097) :
    (let yoe := (doe - doe / 1460 + doe / 36524 - doe / 146096) / 365
     yoe ≤ 399 ∧ 365 * yoe + yoe / 4 - yoe / 100 ≤ doe ∧
       doe - (365 * yoe + yoe / 4 - yoe / 100) ≤ 365) := by
  intro yoe
  by_cases hl : doe = 146096
  · subst hl
    decide
  · have hl0 : doe / 146096 = 0 := by omega
    set c := doe / 36524 with hc
    set r := doe % 36524 with hr
    have hcr : doe = 36524 * c + r ∧ r < 36524 ∧ c ≤ 3 := by omega
    set g := (24 * c + r) / 1460 with hg
    have hq : doe / 1460 = 25 * c + g := by omega
    set k := r / 1461 with hk
    set s := r % 1461 with hs
    have hks : r = 1461 * k + s ∧ s < 1461 ∧ k ≤ 24 := by omega
    set e := (24 * c + k + s) / 1460 with he
    have hge : g = k + e := by omega
    have he01 : e ≤ 1 ∧ (s = 1460 → e = 1) ∧ (s = 0 → e = 0) := by omega
    set j := (s - e) / 365 with hj
    have hj3 : j ≤ 3 := by omega
    have hyoe : yoe = 100 * c + 4 * k + j := by
      simp only [yoe, hl0]
      omega
    have hy4 : yoe / 4 = 25 * c + k := by omega
    have hy100 : yoe / 100 = c := by omega
    refine ⟨by omega, ?_, ?_⟩ <;> omega

lemma civil_roundtrip (n : Nat) (hn : n ≤ 3652364) :
    daysFromCivil (civilFromDays n).1 (civilFromDays n).2.1 (civilFromDays n).2.2 = n ∧
      (civilFromDays n).1 ≤ 9999 ∧
      1 ≤ (civilFromDays n).2.1 ∧ (civilFromDays n).2.1 ≤ 12 ∧
      1 ≤ (civilFromDays n).2.2 ∧ (civilFromDays n).2.2 ≤ 31 := by
  have hdoe146 : n % 146097 < 146097 := Nat.mod_lt _ (by norm_num)
  obtain ⟨hy399, hsoy, hdoy365⟩ := civil_yoe_bounds (n % 146097) hdoe146
  simp only [civilFromDays, daysFromCivil]
  set era := n / 146097 with hera
  set doe := n % 146097 with hdoe
  set yoe := (doe - doe / 1460 + doe / 36524 - doe / 146096) / 365 with hyoe
  set doy := doe - (365 * yoe + yoe / 4 - yoe / 100) with hdoy
  set mp := (5 * doy + 2) / 153 with hmp
  have hmf : mp ≤ 11 ∧ (153 * mp + 2) / 5 ≤ doy ∧ doy - (153 * mp + 2) / 5 ≤ 30 := by
    rw [hmp]
    have : doy ≤ 365 := hdoy365
    omega
  have hera24 : era ≤ 24 := by omega
  have hnd : n = 146097 * era + doe := by omega
  by_cases hmp10 : mp < 10
  · simp only [if_pos hmp10]
    have hm2 : ¬(mp + 3 ≤ 2) := by omega
    simp only [if_neg hm2]
    have h2m : 2 < mp + 3 := by omega
    simp only [if_pos h2m]
    have hyd : (yoe + era * 400) / 400 = era := by omega
    have hym : (yoe + era * 400) % 400 = yoe := by omega
    rw [hyd, hym]
    exact ⟨by omega, by omega, by omega, by omega, by omega, by omega⟩
  · simp only [if_neg hmp10]
    have hm2 : mp - 9 ≤ 2 := by omega
    simp only [if_pos hm2]
    have h2m : ¬(2 < mp - 9) := by omega
    simp only [if_neg h2m]
    have hyd : (yoe + era * 400 + 1 - 1) / 400 = era := by omega
    have hym : (yoe + era * 400 + 1 - 1) % 400 = yoe := by omega
    rw [hyd, hym]
    have hdoy306 : 306 ≤ doy := by omega
    exact ⟨by omega, by omega, by omega, by omega, by omega, by omega⟩

lemma c2d_digitChar (k : Nat) : c2d (digitChar k) = k % 10 := by
  have h : ∀ j, j < 10 → (Char.ofNat (48 + j)).toNat = 48 + j := by decide
  unfold c2d digitChar
  rw [h _ (Nat.mod_lt _ (by norm_num))]
  omega

lemma isDigitChar_digitChar (k : Nat) : isDigitChar (digitChar k) = true := by
  have h : ∀ j, j < 10 → isDigitChar (Char.ofNat (48 + j)) = true := by decide
  unfold digitChar
  exact h _ (Nat.mod_lt _ (by norm_num))

lemma decDigitsAux_zero : ∀ f : Nat, decDigitsAux f 0 = []
  | 0 => rfl
  | f + 1 => by simp [decDigitsAux]

lemma decDigitsAux_unfold (f n : Nat) (h : n ≠ 0) :
    decDigitsAux (f + 1) n = decDigitsAux f (n / 10) ++ [digitChar n] := by
  simp [decDigitsAux, h]

lemma decDigitsAux_single (f n : Nat) (h1 : 1 ≤ n) (h9 : n ≤ 9) :
    decDigitsAux (f + 1) n = [digitChar n] := by
  rw [decDigitsAux_unfold f n (by omega)]
  have : n / 10 = 0 := by omega
  rw [this, decDigitsAux_zero]
  rfl

lemma fmt02_eq (n : Nat) (h : n < 100) :
    fmt02 n = [digitChar (n / 10), digitChar n] := by
  by_cases h0 : n = 0
  · subst h0
    decide
  · by_cases h9 : n ≤ 9
    · have hd : n / 10 = 0 := by omega
      have h00 : digitChar 0 = '0' := by decide
      simp only [fmt02, decDigits, if_neg h0,
        decDigitsAux_single 18 n (by omega) h9, zfill, hd, h00]
      rfl
    · have h10 : n / 10 ≠ 0 := by omega
      simp only [fmt02, decDigits, if_neg h0,
        decDigitsAux_unfold 18 n h0,
        decDigitsAux_single 17 (n / 10) (by omega) (by omega), zfill]
      rfl

lemma fmt04_eq (n : Nat) (h : n < 10000) :
    fmt04 n = [digitChar (n / 1000), digitChar (n / 100), digitChar (n / 10),
      digitChar n] := by
  have e21 : n / 10 / 10 = n / 100 := by omega
  have e32 : n / 100 / 10 = n / 1000 := by omega
  by_cases h0 : n = 0
  · subst h0
    decide
  · by_cases h9 : n ≤ 9
    · have d1 : n / 10 = 0 := by omega
      have d2 : n / 100 = 0 := by omega
      have d3 : n / 1000 = 0 := by omega
      simp only [fmt04, decDigits, if_neg h0,
        decDigitsAux_single 18 n (by omega) h9, zfill, d1, d2, d3]
      rfl
    · by_cases h99 : n ≤ 99
      · have d2 : n / 100 = 0 := by omega
        have d3 : n / 1000 = 0 := by omega
        simp only [fmt04, decDigits, if_neg h0, decDigitsAux_unfold 18 n h0, e21,
          decDigitsAux_single 17 (n / 10) (by omega) (by omega), zfill, d2, d3]
        rfl
      · by_cases h999 : n ≤ 999
        · have d3 : n / 1000 = 0 := by omega
          simp only [fmt04, decDigits, if_neg h0, decDigitsAux_unfold 18 n h0,
            decDigitsAux_unfold 17 (n / 10) (by omega), e21,
            decDigitsAux_single 16 (n / 100) (by omega) (by omega), zfill, d3]
          rfl
        · simp only [fmt04, decDigits, if_neg h0, decDigitsAux_unfold 18 n h0,
            decDigitsAux_unfold 17 (n / 10) (by omega), e21,
            decDigitsAux_unfold 16 (n / 100) (by omega), e32,
            decDigitsAux_single 15 (n / 1000) (by omega) (by omega), zfill]
          rfl

lemma parseXmltvMs_mk (y1 y2 y3 y4 a1 a2 b1 b2 c1 c2 d1 d2 e1 e2 sp sg f1 f2 g1 g2 : Char) :
    parseXmltvMs (String.mk [y1, y2, y3, y4, a1, a2, b1, b2, c1, c2, d1, d2,
        e1, e2, sp, sg, f1, f2, g1, g2]) =
      (if ([y1, y2, y3, y4, a1, a2, b1, b2, c1, c2, d1, d2, e1, e2,
            f1, f2, g1, g2].all isDigitChar) && sp = ' ' && (sg = '+' || sg = '-') then
        some (((((daysFromCivil (1000 * c2d y1 + 100 * c2d y2 + 10 * c2d y3 + c2d y4)
                    (10 * c2d a1 + c2d a2) (10 * c2d b1 + c2d b2) : Nat) : Int) - 719468) * 86400 +
               ((3600 * (10 * c2d c1 + c2d c2) + 60 * (10 * c2d d1 + c2d d2) +
                   (10 * c2d e1 + c2d e2) : Nat) : Int) -
               ((if sg = '+' then (1 : Int) else -1) *
                   (60 * (10 * c2d f1 + c2d f2) + (10 * c2d g1 + c2d g2))) * 60) * 1000)
      else none) := rfl

lemma parse_render (y mo dd hh mi ss : Nat) (offMin : Int)
    (hy : y ≤ 9999) (hmo : mo ≤ 12) (hdd : dd ≤ 31)
    (hh24 : hh < 24) (hmi60 : mi < 60) (hss60 : ss < 60)
    (hoffb : offMin.natAbs < 1440) :
    parseXmltvMs (String.mk (fmt04 y ++ fmt02 mo ++ fmt02 dd ++ fmt02 hh ++
        fmt02 mi ++ fmt02 ss ++ [' ', if 0 ≤ offMin then '+' else '-'] ++
        fmt02 (offMin.natAbs / 60) ++ fmt02 (offMin.natAbs % 60))) =
      some ((((daysFromCivil y mo dd : Int) - 719468) * 86400 +
        ((3600 * hh + 60 * mi + ss : Nat) : Int) - offMin * 60) * 1000) := by
  rw [fmt04_eq y (by omega), fmt02_eq mo (by omega), fmt02_eq dd (by omega),
    fmt02_eq hh (by omega), fmt02_eq mi (by omega), fmt02_eq ss (by omega),
    fmt02_eq (offMin.natAbs / 60) (by omega), fmt02_eq (offMin.natAbs % 60) (by omega)]
  simp only [List.cons_append, List.nil_append]
  rw [parseXmltvMs_mk]
  have hcond : (([digitChar (y / 1000), digitChar (y / 100), digitChar (y / 10), digitChar y,
      digitChar (mo / 10), digitChar mo, digitChar (dd / 10), digitChar dd,
      digitChar (hh / 10), digitChar hh, digitChar (mi / 10), digitChar mi,
      digitChar (ss / 10), digitChar ss,
      digitChar (offMin.natAbs / 60 / 10), digitChar (offMin.natAbs / 60),
      digitChar (offMin.natAbs % 60 / 10), digitChar (offMin.natAbs % 60)].all isDigitChar)
      && (' ' : Char) = ' ' &&
      ((if 0 ≤ offMin then '+' else '-') = '+' ||
        (if 0 ≤ offMin then '+' else '-') = '-')) = true := by
    by_cases h0 : 0 ≤ offMin <;>
      simp [h0, List.all_cons, isDigitChar_digitChar]
  rw [if_pos hcond]
  have hY : 1000 * c2d (digitChar (y / 1000)) + 100 * c2d (digitChar (y / 100)) +
      10 * c2d (digitChar (y / 10)) + c2d (digitChar y) = y := by
    simp only [c2d_digitChar]
    omega
  have hMO : 10 * c2d (digitChar (mo / 10)) + c2d (digitChar mo) = mo := by
    simp only [c2d_digitChar]
    omega
  have hDD : 10 * c2d (digitChar (dd / 10)) + c2d (digitChar dd) = dd := by
    simp only [c2d_digitChar]
    omega
  have hHH : 10 * c2d (digitChar (hh / 10)) + c2d (digitChar hh) = hh := by
    simp only [c2d_digitChar]
    omega
  have hMI : 10 * c2d (digitChar (mi / 10)) + c2d (digitChar mi) = mi := by
    simp only [c2d_digitChar]
    omega
  have hSS : 10 * c2d (digitChar (ss / 10)) + c2d (digitChar ss) = ss := by
    simp only [c2d_digitChar]
    omega
  rw [hY, hMO, hDD, hHH, hMI, hSS]
  simp only [c2d_digitChar]
  congr 1
  by_cases h0 : 0 ≤ offMin
  · rw [if_pos h0, if_pos rfl]
    omega
  · rw [if_neg h0, if_neg (show ('-' : Char) ≠ '+' by decide)]
    omega

/-- C8 counterexample: the claim fails for timestamps that are not
whole seconds — `ms = 500` renders as the epoch second `0` (the
sub-second part of `fromtimestamp(ms / 1000)` is discarded by `%S`), so
re-parsing yields instant `0`, not the original `500`. -/
theorem xmltv_time_subsecond_counterexample :
    xmltv_time 500 (fun _ => 0) = "19700101000000 +0000" ∧
    parseXmltvMs (xmltv_time 500 (fun _ => 0)) = some 0 ∧
    (0 : Int) ≠ 500 := by
  refine ⟨by decide, by decide, by decide⟩

/-- C8 amended: for whole-second epoch-millisecond timestamps (and any
minute-resolution UTC offset within `datetime`'s bounds `±24h`, at an
instant whose local time lies in `datetime`'s representable range
0001-01-01 .. 9999-12-31), formatting with `xmltv_time` and re-parsing
the `YYYYMMDDHHMMSS ±HHMM` result yields the original instant, and the
trailing offset string is always a sign followed by two hour digits and
two minute digits. -/
theorem xmltv_time_roundtrip_whole_seconds (ms : Int) (tz : Int → Int)
    (hms : ms % 1000 = 0)
    (hoffb : (tz (ms / 1000)).natAbs < 1440)
    (hlo : -62135596800 ≤ ms / 1000 + tz (ms / 1000) * 60)
    (hhi : ms / 1000 + tz (ms / 1000) * 60 ≤ 253402300799) :
    parseXmltvMs (xmltv_time ms tz) = some ms ∧
    ∃ (pre : List Char) (sg o1 o2 o3 o4 : Char),
      (xmltv_time ms tz).data = pre ++ [' ', sg, o1, o2, o3, o4] ∧
      (sg = '+' ∨ sg = '-') ∧
      isDigitChar o1 = true ∧ isDigitChar o2 = true ∧
      isDigitChar o3 = true ∧ isDigitChar o4 = true := by
  set secs := ms / 1000 with hsecs
  set off := tz secs with hoffdef
  set localSecs := secs + off * 60 with hlocal
  set days := localSecs / 86400 with hdays
  set sod := (localSecs % 86400).toNat with hsod
  set n := (days + 719468).toNat with hn
  have hsodlt : sod < 86400 := by omega
  have hnb : n ≤ 3652364 := by omega
  have hnint : (n : Int) = days + 719468 := by omega
  obtain ⟨hrt, hy, hm1, hm12, hd1, hd31⟩ := civil_roundtrip n hnb
  rcases hc : civilFromDays n with ⟨y, m, d⟩
  rw [hc] at hrt hy hm1 hm12 hd1 hd31
  simp only at hrt hy hm1 hm12 hd1 hd31
  have hx : xmltv_time ms tz = String.mk (fmt04 y ++ fmt02 m ++ fmt02 d ++
      fmt02 (sod / 3600) ++ fmt02 (sod % 3600 / 60) ++ fmt02 (sod % 60) ++
      [' ', if 0 ≤ off then '+' else '-'] ++
      fmt02 (off.natAbs / 60) ++ fmt02 (off.natAbs % 60)) := by
    have hx0 : xmltv_time ms tz = String.mk (fmt04 (civilFromDays n).1 ++
        fmt02 (civilFromDays n).2.1 ++ fmt02 (civilFromDays n).2.2 ++
        fmt02 (sod / 3600) ++ fmt02 (sod % 3600 / 60) ++ fmt02 (sod % 60) ++
        [' ', if 0 ≤ off then '+' else '-'] ++
        fmt02 (off.natAbs / 60) ++ fmt02 (off.natAbs % 60)) := rfl
    rw [hx0, hc]
  constructor
  · rw [hx, parse_render y m d (sod / 3600) (sod % 3600 / 60) (sod % 60) off
      hy hm12 hd31 (by omega) (by omega) (by omega) hoffb]
    rw [hrt]
    congr 1
    have hsum : (3600 * (sod / 3600) + 60 * (sod % 3600 / 60) + sod % 60) = sod := by
      omega
    rw [hsum]
    omega
  · rw [hx, fmt02_eq (off.natAbs / 60) (by omega), fmt02_eq (off.natAbs % 60) (by omega)]
    refine ⟨fmt04 y ++ fmt02 m ++ fmt02 d ++ fmt02 (sod / 3600) ++
      fmt02 (sod % 3600 / 60) ++ fmt02 (sod % 60),
      (if 0 ≤ off then '+' else '-'),
      digitChar (off.natAbs / 60 / 10), digitChar (off.natAbs / 60),
      digitChar (off.natAbs % 60 / 10), digitChar (off.natAbs % 60), ?_, ?_, ?_, ?_, ?_, ?_⟩
    · simp
    · by_cases h0 : 0 ≤ off
      · exact Or.inl (by simp [h0])
      · exact Or.inr (by simp [h0])
    · exact isDigitChar_digitChar _
    · exact isDigitChar_digitChar _
    · exact isDigitChar_digitChar _
    · exact isDigitChar_digitChar _

/-- Witness for C8's amended statement at a concrete whole-second
timestamp and a fixed −08:00 offset. -/
theorem xmltv_time_roundtrip_witness :
    parseXmltvMs (xmltv_time 1700000000000 (fun _ => -480)) =
      some 1700000000000 :=
  (xmltv_time_roundtrip_whole_seconds 1700000000000 (fun _ => -480)
    (by decide) (by decide) (by decide) (by decide)).1

end PrimeLiveTv
